import Mathlib

/-!
# Sudoku board generator (`sudoku.cpp`): embedding and verified properties

The program fills a 9x9 board by randomised recursive backtracking and prints it.

Modelling conventions

* A board buffer (`int(*)[kSize]`) is a function from row and column index to the cell
  value.  Indices are array indices, hence natural numbers; only the cells with both
  indices below `kSize` belong to the buffer, and `Copy` / `Fill` touch exactly those.
* Buffers live in a heap addressed by natural numbers.  `new` obtains an address from an
  arbitrary allocator that never hands out a live address; the fresh buffer keeps
  whatever the heap held there (uninitialised memory).  `delete[]` removes the address
  from the live list, so that it may be handed out again.
* `std::shuffle` seeded from the system clock, together with the unspecified iteration
  order of `std::unordered_set`, is an arbitrary permutation that may differ at every
  call: the `Shuffler` is indexed by the number of calls made so far.
* The two function-local statics of `GetAllowedValues` are fields of the `World`.
* Recursion is bounded by a fuel parameter that counts nested frames; running out of
  fuel yields `none`.
* Text written to the standard output stream is modelled for `PrintBoard` only; the
  diagnostic printing inside the search is not part of the state.  Where a property
  speaks of the frames and steps of a run, these are recorded as events by
  `CreateRecursiveLog`, a copy of `CreateRecursive` that threads the list of events.
-/

set_option maxRecDepth 100000

namespace Sudoku

/-! ## Data model -/

/-- Side length of the board (`kSize`). -/
abbrev kSize : Nat := 9

/-- Contents of one board buffer: cell value by row and column. -/
abbrev Board := Nat → Nat → Int

/-- Outcome of one search frame (`enum class RecursionResult`). -/
inductive RecursionResult where
  | kFailed
  | kComplete
  deriving DecidableEq, Repr

/-- Source of candidate orderings: the permutation applied by the `n`-th shuffle. -/
structure Shuffler where
  run : Nat → List Int → List Int
  perm : ∀ n values, (run n values).Perm values

/-- Allocation policy of `new`: any choice of an address that is not live. -/
structure Allocator where
  pick : List Nat → Nat
  fresh : ∀ live, pick live ∉ live

/-- Mutable program state seen by the search. -/
structure World where
  /-- contents of every buffer address -/
  heap : Nat → Board
  /-- addresses currently allocated -/
  live : List Nat
  /-- number of shuffles drawn so far -/
  clock : Nat
  /-- the static `std::unordered_set<int> allowed` of `GetAllowedValues` -/
  allowed : List Int
  /-- the static `std::vector<int> shuffled` of `GetAllowedValues` -/
  shuffled : List Int

/-- The shuffler that leaves every list in place. -/
def Shuffler.identity : Shuffler := ⟨fun _ values => values, fun _ _ => List.Perm.refl _⟩

/-- The shuffler that reverses every list. -/
def Shuffler.reversing : Shuffler := ⟨fun _ values => values.reverse, fun _ values => List.reverse_perm values⟩

/-- An allocator handing out one more than the sum of the live addresses. -/
def Allocator.bump : Allocator :=
  ⟨fun live => live.sum + 1, fun live h => by
    have hle : live.sum + 1 ≤ live.sum := List.single_le_sum (fun x _ => Nat.zero_le x) _ h
    omega⟩

/-! ## Board utilities -/

/-- The assignment `board[row][column] = value`. -/
def setCell (board : Board) (row column : Nat) (value : Int) : Board :=
  fun r c => if r = row ∧ c = column then value else board r c

/-- Embedding of `Fill`: every cell of the buffer receives `value`. -/
def Fill (board : Board) (value : Int) : Board :=
  fun row column => if row < kSize ∧ column < kSize then value else board row column

/-- Embedding of `Copy`: the `kSize * kSize` cells of `src` overwrite those of `dst`. -/
def Copy (src dst : Board) : Board :=
  fun row column => if row < kSize ∧ column < kSize then src row column else dst row column

/-- Store new contents at a buffer address. -/
def World.store (w : World) (addr : Nat) (b : Board) : World :=
  { w with heap := fun a => if a = addr then b else w.heap a }

/-- Embedding of `new int[kSize][kSize]`: the chosen address becomes live. -/
def World.alloc (w : World) (addr : Nat) : World :=
  { w with live := addr :: w.live }

/-- Embedding of `delete[]`: the address is no longer live. -/
def World.free (w : World) (addr : Nat) : World :=
  { w with live := w.live.erase addr }

/-! ## Printing -/

/-- Inner loop of `PrintBoard`: the cells of one row appended to the output. -/
def printRowCells (board : Board) (row : Nat) (out : String) : String :=
  (List.range kSize).foldl (fun out column =>
    let value := board row column
    let out := if value = 0 then out ++ "_" else out ++ toString value
    if column < kSize - 1 then
      let out := out ++ " "
      if column % 3 = 2 then out ++ " " else out
    else out) out

/-- Embedding of `PrintBoard`: the text appended to the standard output. -/
def PrintBoard (out : String) (board : Board) : String :=
  (List.range kSize).foldl (fun out row =>
    let out := printRowCells board row out
    let out := out ++ "\n"
    if row % 3 = 2 ∧ row < kSize - 1 then out ++ "\n" else out) out

/-! ## Constraint evaluation -/

/-- The operation `values->erase(x)` on a set kept as a list. -/
def eraseValue (values : List Int) (x : Int) : List Int :=
  values.filter (fun y => y ≠ x)

/-- Embedding of `AllowedInRow`. -/
def AllowedInRow (board : Board) (values : List Int) (row : Nat) : List Int :=
  (List.range kSize).foldl (fun vs column => eraseValue vs (board row column)) values

/-- Embedding of `AllowedInColumn`. -/
def AllowedInColumn (board : Board) (values : List Int) (column : Nat) : List Int :=
  (List.range kSize).foldl (fun vs row => eraseValue vs (board row column)) values

/-- Embedding of `AllowedInBox`. -/
def AllowedInBox (board : Board) (values : List Int) (row column : Nat) : List Int :=
  (List.range 3).foldl (fun vs i =>
    (List.range 3).foldl (fun vs j =>
      eraseValue vs (board (row - row % 3 + i) (column - column % 3 + j))) vs) values

/-- Embedding of `GetAllowedValues`: both statics are overwritten, one shuffle is drawn.
The returned vector is the `shuffled` field of the resulting world. -/
def GetAllowedValues (sh : Shuffler) (w : World) (board : Nat) (row column : Nat) : World :=
  let allowed : List Int := [1, 2, 3, 4, 5, 6, 7, 8, 9]
  let allowed := AllowedInRow (w.heap board) allowed row
  let allowed := AllowedInColumn (w.heap board) allowed column
  let allowed := AllowedInBox (w.heap board) allowed row column
  { w with allowed := allowed, shuffled := sh.run w.clock allowed, clock := w.clock + 1 }

/-! ## Search -/

/-- Embedding of `IsAtBottomRight`. -/
def IsAtBottomRight (row column : Nat) : Bool :=
  decide (row ≥ kSize - 1) && decide (column ≥ kSize - 1)

/-- Embedding of `IterateNext`. -/
def IterateNext (row column : Nat) : Nat × Nat :=
  if column < kSize - 1 then (row, column + 1) else (row + 1, 0)

/-- The `for (const auto & val : allowed)` loop of `CreateRecursive`, with the recursive
call passed in as `recurse`.  Falling out of the loop frees `state` and fails. -/
def tryCandidates (recurse : World → Option (RecursionResult × World))
    (state output row column : Nat) :
    List Int → World → Option (RecursionResult × World)
  | [], w => some (RecursionResult.kFailed, w.free state)
  | val :: rest, w =>
    let w := w.store state (setCell (w.heap state) row column val)
    if IsAtBottomRight row column then
      let w := w.store output (Copy (w.heap state) (w.heap output))
      some (RecursionResult.kComplete, w.free state)
    else
      match recurse w with
      | none => none
      | some (RecursionResult.kComplete, w) => some (RecursionResult.kComplete, w.free state)
      | some (RecursionResult.kFailed, w) => tryCandidates recurse state output row column rest w

/-- Embedding of `CreateRecursive`.  The first argument bounds the number of nested
frames. -/
def CreateRecursive (sh : Shuffler) (al : Allocator) :
    Nat → World → Nat → Nat → Nat → Nat → Option (RecursionResult × World)
  | 0, _, _, _, _, _ => none
  | fuel + 1, w, old_state, output, row, column =>
    let state := al.pick w.live
    let w := w.alloc state
    let w := w.store state (Copy (w.heap old_state) (w.heap state))
    let w := GetAllowedValues sh w old_state row column
    let allowed := w.shuffled
    if allowed.length = 0 then
      some (RecursionResult.kFailed, w.free state)
    else
      let next_pos := IterateNext row column
      tryCandidates (fun w => CreateRecursive sh al fuel w state output next_pos.1 next_pos.2)
        state output row column allowed w

/-- Embedding of `Run` up to and including the call of `CreateRecursive`. -/
def Run (sh : Shuffler) (al : Allocator) (w : World) : Option (RecursionResult × World) :=
  let board := al.pick w.live
  let w := w.alloc board
  let w := w.store board (Fill (w.heap board) 0)
  CreateRecursive sh al 81 w board board 0 0

/-! ## Reference layouts used to state the printing properties -/

/-- Rendering of one cell as the specification words it: an underscore for an empty cell,
the decimal digit otherwise. -/
def cellGlyph (value : Int) : String :=
  if value = 0 then "_" else String.singleton (Nat.digitChar value.toNat)

/-- Text of one row as the specification words it: the nine cells in column order, one
space between adjacent columns, one more after columns 2 and 5, none after column 8. -/
def rowLayout (board : Board) (row : Nat) : String :=
  cellGlyph (board row 0) ++ " " ++ cellGlyph (board row 1) ++ " " ++
  cellGlyph (board row 2) ++ " " ++ " " ++
  cellGlyph (board row 3) ++ " " ++ cellGlyph (board row 4) ++ " " ++
  cellGlyph (board row 5) ++ " " ++ " " ++
  cellGlyph (board row 6) ++ " " ++ cellGlyph (board row 7) ++ " " ++
  cellGlyph (board row 8)

/-- Row arrangement as the specification words it: a blank line between any two
consecutive rows, one more blank line after rows 2 and 5, none after row 8. -/
def blankLineLayout (board : Board) : String :=
  (List.range kSize).foldl (fun out row =>
    let out := printRowCells board row out ++ "\n"
    let out := if row < kSize - 1 then out ++ "\n" else out
    if row % 3 = 2 ∧ row < kSize - 1 then out ++ "\n" else out) ""

/-- Values present in a row of the board. -/
def rowValues (board : Board) (row : Nat) : Finset Int :=
  (Finset.range 9).image (fun c => board row c)

/-- Values present in a column of the board. -/
def columnValues (board : Board) (column : Nat) : Finset Int :=
  (Finset.range 9).image (fun r => board r column)

/-- Values present in the 3x3 box whose top-left corner is
`(row - row % 3, column - column % 3)`. -/
def boxValues (board : Board) (row column : Nat) : Finset Int :=
  (Finset.range 3 ×ˢ Finset.range 3).image
    (fun p => board (row - row % 3 + p.1) (column - column % 3 + p.2))

/-- The set computed by `GetAllowedValues` before shuffling, as a function of the board
contents. -/
def allowedSet (board : Board) (row column : Nat) : List Int :=
  AllowedInBox board
    (AllowedInColumn board (AllowedInRow board [1, 2, 3, 4, 5, 6, 7, 8, 9] row) column)
    row column

/-- Text printed for one cell by the body of the inner loop of `PrintBoard`. -/
def cellText (value : Int) : String :=
  if value = 0 then "_" else toString value

/-- Separator printed after the cell of a column. -/
def columnGap (column : Nat) : String :=
  if column < kSize - 1 then (if column % 3 = 2 then " " ++ " " else " ") else ""

/-- Line ends printed after a row by the body of the outer loop of `PrintBoard`. -/
def rowEnd (row : Nat) : String :=
  if row % 3 = 2 ∧ row < kSize - 1 then "\n" ++ "\n" else "\n"

/-! ## Functional view of the search

The same search with the heap removed: a frame receives the contents of the incoming
board and the shuffle counter, and returns the outcome, the completed board and the
counter.  It is related to `CreateRecursive` by `CreateRecursive_refines` and serves to
reason about the values the search computes. -/

/-- Candidate loop of a frame on board contents. -/
def searchLoop (recurse : Nat → Board → Option (RecursionResult × Board × Nat))
    (row column : Nat) (b : Board) :
    List Int → Nat → Option (RecursionResult × Board × Nat)
  | [], clk => some (RecursionResult.kFailed, b, clk)
  | val :: rest, clk =>
    if IsAtBottomRight row column then
      some (RecursionResult.kComplete, setCell b row column val, clk)
    else
      match recurse clk (setCell b row column val) with
      | none => none
      | some (RecursionResult.kComplete, b2, clk2) => some (RecursionResult.kComplete, b2, clk2)
      | some (RecursionResult.kFailed, _, clk2) => searchLoop recurse row column b rest clk2

/-- One frame of the search on board contents. -/
def search (sh : Shuffler) :
    Nat → Nat → Board → Nat → Nat → Option (RecursionResult × Board × Nat)
  | 0, _, _, _, _ => none
  | fuel + 1, clk, b, row, column =>
    let allowed := sh.run clk (allowedSet b row column)
    if allowed.length = 0 then
      some (RecursionResult.kFailed, b, clk + 1)
    else
      searchLoop
        (fun clk2 b2 => search sh fuel clk2 b2 (IterateNext row column).1 (IterateNext row column).2)
        row column b allowed (clk + 1)

/-- Two buffers hold the same 81 cells. -/
def SameCells (a b : Board) : Prop :=
  ∀ r, r < 9 → ∀ c, c < 9 → a r c = b r c

/-- Outcome `h` of a heap computation started in `w` matches the functional outcome `p`:
the live list becomes `live2`, the shuffle counter agrees, live buffers other than
`output` and those excluded by `keep` are untouched, `output` is untouched on failure
and receives the cells of the completed board on success. -/
def Refines (w : World) (output : Nat) (live2 : List Nat) (keep : Nat → Prop)
    (p : Option (RecursionResult × Board × Nat)) (h : Option (RecursionResult × World)) : Prop :=
  match p with
  | none => h = none
  | some (res, b2, clk2) =>
    ∃ w2, h = some (res, w2) ∧ w2.live = live2 ∧ w2.clock = clk2 ∧
      (∀ a, a ∈ w.live → a ≠ output → keep a → w2.heap a = w.heap a) ∧
      (res = RecursionResult.kFailed → w2.heap output = w.heap output) ∧
      (res = RecursionResult.kComplete → w2.heap output = Copy b2 (w.heap output))

/-! ## Sudoku validity -/

/-- The digits 1..9. -/
def digits : List Int := [1, 2, 3, 4, 5, 6, 7, 8, 9]

/-- The nine cells of a row, in column order. -/
def rowCells (b : Board) (r : Nat) : List Int := (List.range 9).map (fun c => b r c)

/-- The nine cells of a column, in row order. -/
def columnCells (b : Board) (c : Nat) : List Int := (List.range 9).map (fun r => b r c)

/-- The nine cells of the box in box-row `i` and box-column `j`. -/
def boxCells (b : Board) (i j : Nat) : List Int :=
  (List.range 9).map (fun k => b (3 * i + k / 3) (3 * j + k % 3))

/-- Every row, every column and every 3x3 box is a permutation of 1..9. -/
def ValidSolved (b : Board) : Prop :=
  (∀ r, r < 9 → (rowCells b r).Perm digits) ∧
  (∀ c, c < 9 → (columnCells b c).Perm digits) ∧
  (∀ i, i < 3 → ∀ j, j < 3 → (boxCells b i j).Perm digits)

/-- Two cells share a row, a column or a 3x3 box. -/
def Peers (r c r2 c2 : Nat) : Prop :=
  r = r2 ∨ c = c2 ∨ (r / 3 = r2 / 3 ∧ c / 3 = c2 / 3)

/-- The cells whose row-major index `9 * r + c` is below `k` hold digits 1..9, and none of
them repeats the digit of an earlier cell in its row, its column or its box. -/
def ValidBefore (b : Board) (k : Nat) : Prop :=
  ∀ r, r < 9 → ∀ c, c < 9 → 9 * r + c < k →
    (1 ≤ b r c ∧ b r c ≤ 9) ∧
    ∀ r2, r2 < 9 → ∀ c2, c2 < 9 → 9 * r2 + c2 < 9 * r + c → Peers r c r2 c2 → b r2 c2 ≠ b r c

/-- The cells whose row-major index is `k` or more are all 0. -/
def ZeroFrom (b : Board) (k : Nat) : Prop :=
  ∀ r, r < 9 → ∀ c, c < 9 → k ≤ 9 * r + c → b r c = 0

/-- Boards `a` and `b` agree on the cells whose row-major index is below `k`. -/
def AgreeBefore (a b : Board) (k : Nat) : Prop :=
  ∀ r, r < 9 → ∀ c, c < 9 → 9 * r + c < k → a r c = b r c

/-- Board `b2` keeps the cells of `b` below row-major index `k`, and each of its cells
from index `k` on holds a digit 1..9 that repeats no earlier cell of `b2` in its row,
its column or its box. -/
def ExtendsFrom (b b2 : Board) (k : Nat) : Prop :=
  AgreeBefore b2 b k ∧
  ∀ r, r < 9 → ∀ c, c < 9 → k ≤ 9 * r + c →
    (1 ≤ b2 r c ∧ b2 r c ≤ 9) ∧
    ∀ r2, r2 < 9 → ∀ c2, c2 < 9 → 9 * r2 + c2 < 9 * r + c → Peers r c r2 c2 →
      b2 r2 c2 ≠ b2 r c

/-- A world whose only live buffer, at address 0, is an empty board. -/
def emptyWorld : World := ⟨fun _ _ _ => 0, [0], 0, [], []⟩

/-- A solved board: the one the search reaches when no shuffle reorders anything. -/
def solvedBoard : Board := fun r c =>
  ([[1, 2, 3, 4, 5, 6, 7, 8, 9], [4, 5, 6, 7, 8, 9, 1, 2, 3], [7, 8, 9, 1, 2, 3, 4, 5, 6],
    [2, 1, 4, 3, 6, 5, 8, 9, 7], [3, 6, 5, 8, 9, 7, 2, 1, 4], [8, 9, 7, 2, 1, 4, 3, 6, 5],
    [5, 3, 1, 6, 4, 2, 9, 7, 8], [6, 4, 2, 9, 7, 8, 5, 3, 1], [9, 7, 8, 5, 3, 1, 6, 4, 2]]
    : List (List Int)).getD r [] |>.getD c 0

/-- A world with two live buffers: at address 0 the solved board with its last cell
emptied, at address 1 an empty board. -/
def lastCellWorld : World :=
  ⟨fun a => if a = 0 then setCell solvedBoard 8 8 0 else fun _ _ => 0, [0, 1], 0, [], []⟩

/-- A world with two live buffers: at address 0 the solved board with its last cell
emptied and the digit that cell needs placed at the top of its column, at address 1 an
empty board. -/
def deadEndWorld : World :=
  ⟨fun a => if a = 0 then setCell (setCell solvedBoard 8 8 0) 0 8 2 else fun _ _ => 0,
    [0, 1], 0, [], []⟩

/-- The board with every cell empty. -/
def emptyBoard : Board := fun _ _ => 0

/-! ## The search with its diagnostic points recorded

`CreateRecursive` announces on the standard output the frame it enters, the candidate it
is attempting and the completion of the board.  These points, together with the
computation of `next_pos`, the copy to `output` and the recursive call, are recorded here
as events, in the order in which the source reaches them.  `CreateRecursiveLog` is
`CreateRecursive` with the event list threaded through; `CreateRecursiveLog_erase` shows
that dropping the list gives back `CreateRecursive`. -/

/-- One recorded point of a run of `CreateRecursive`. -/
inductive Event where
  /-- a frame at `(row, column)` has copied the incoming board into its working copy
  `state` (source lines 136 to 140) -/
  | enter (row column : Nat) (state : Board)
  /-- `next_pos = IterateNext(row, column)` has been computed (source line 153) -/
  | iterate (row column : Nat) (next_pos : Nat × Nat)
  /-- `state[row][column] = val` has been executed, leaving `state` (source line 156) -/
  | attempt (row column : Nat) (val : Int) (state : Board)
  /-- `Copy(state, output)` is executed (source line 162) -/
  | output (state : Board)
  /-- the frame at `(row, column)` calls `CreateRecursive` at `next_pos` (source line 168) -/
  | call (row column : Nat) (next_pos : Nat × Nat)

/-- The event records a copy to the output board. -/
def Event.isOutput : Event → Bool
  | Event.output _ => true
  | _ => false

/-- Number of copies to the output board recorded in a log. -/
def countOutput (log : List Event) : Nat := (log.filter Event.isOutput).length

/-- The candidate loop of `CreateRecursive` with events recorded. -/
def tryCandidatesLog
    (recurse : World → List Event → Option (RecursionResult × World × List Event))
    (state output row column : Nat) (next_pos : Nat × Nat) :
    List Int → World → List Event → Option (RecursionResult × World × List Event)
  | [], w, log => some (RecursionResult.kFailed, w.free state, log)
  | val :: rest, w, log =>
    let w := w.store state (setCell (w.heap state) row column val)
    let log := log ++ [Event.attempt row column val (w.heap state)]
    if IsAtBottomRight row column then
      let log := log ++ [Event.output (w.heap state)]
      let w := w.store output (Copy (w.heap state) (w.heap output))
      some (RecursionResult.kComplete, w.free state, log)
    else
      let log := log ++ [Event.call row column next_pos]
      match recurse w log with
      | none => none
      | some (RecursionResult.kComplete, w, log) =>
        some (RecursionResult.kComplete, w.free state, log)
      | some (RecursionResult.kFailed, w, log) =>
        tryCandidatesLog recurse state output row column next_pos rest w log

/-- `CreateRecursive` with events recorded. -/
def CreateRecursiveLog (sh : Shuffler) (al : Allocator) :
    Nat → World → List Event → Nat → Nat → Nat → Nat →
      Option (RecursionResult × World × List Event)
  | 0, _, _, _, _, _, _ => none
  | fuel + 1, w, log, old_state, output, row, column =>
    let state := al.pick w.live
    let w := w.alloc state
    let w := w.store state (Copy (w.heap old_state) (w.heap state))
    let log := log ++ [Event.enter row column (w.heap state)]
    let w := GetAllowedValues sh w old_state row column
    let allowed := w.shuffled
    if allowed.length = 0 then
      some (RecursionResult.kFailed, w.free state, log)
    else
      let next_pos := IterateNext row column
      let log := log ++ [Event.iterate row column next_pos]
      tryCandidatesLog
        (fun w log => CreateRecursiveLog sh al fuel w log state output next_pos.1 next_pos.2)
        state output row column next_pos allowed w log

/-- Drop the event list from an outcome. -/
def eraseLog (x : Option (RecursionResult × World × List Event)) :
    Option (RecursionResult × World) :=
  x.map (fun y => (y.1, y.2.1))

/-- What an event must satisfy, given the property `I` that the boards of a run are to
keep: frames and assignments are at in-range positions and their boards satisfy `I` up
to the cell reached, `next_pos` is what `IterateNext` returns, and a recursive call is
made at the in-range position whose row-major index is one more than the caller's. -/
def GoodEvent (I : Board → Nat → Prop) : Event → Prop
  | Event.enter row column state => row < 9 ∧ column < 9 ∧ I state (9 * row + column)
  | Event.iterate row column next_pos =>
    row < 9 ∧ column < 9 ∧ next_pos = IterateNext row column
  | Event.attempt row column val state =>
    row < 9 ∧ column < 9 ∧ state row column = val ∧ I state (9 * row + column + 1)
  | Event.output _ => True
  | Event.call row column next_pos =>
    row < 9 ∧ column < 9 ∧ next_pos.1 < 9 ∧ next_pos.2 < 9 ∧
      9 * next_pos.1 + next_pos.2 = 9 * row + column + 1

/-- Invariant of the generation: exactly the cells before row-major index `k` are
non-zero, they hold digits 1..9, and none repeats an earlier one of its row, column or
box. -/
def FilledBefore (b : Board) (k : Nat) : Prop :=
  (∀ r, r < 9 → ∀ c, c < 9 → (b r c ≠ 0 ↔ 9 * r + c < k)) ∧ ValidBefore b k

/-- The world in which a frame of `CreateRecursive` starts its candidate loop: the
working copy allocated at `al.pick w.live` and filled, the candidate vector drawn. -/
def enterFrame (sh : Shuffler) (al : Allocator) (w : World) (old_state row column : Nat) :
    World :=
  GetAllowedValues sh
    ((w.alloc (al.pick w.live)).store (al.pick w.live)
      (Copy (w.heap old_state) (w.heap (al.pick w.live))))
    old_state row column

/-- Starting in `w`, each candidate of the list in turn was written to cell
`(row, column)` of `state`, making its cells those of `b` with that cell replaced, and the
recursive call `child` on it returned `kFailed`; `w2` is the world left by the last of
these calls. -/
def TriedAndFailed (child : World → Option (RecursionResult × World))
    (state row column : Nat) (b : Board) : List Int → World → World → Prop
  | [], w, w2 => w2 = w
  | v :: rest, w, w2 =>
    SameCells (setCell (w.heap state) row column v) (setCell b row column v) ∧
    ∃ w1, child (w.store state (setCell (w.heap state) row column v)) =
        some (RecursionResult.kFailed, w1) ∧
      TriedAndFailed child state row column b rest w1 w2

/-- A world with two live buffers: at address 0 the solved board with the last two cells
of its last row emptied, at address 1 an empty board. -/
def lastTwoCellsWorld : World :=
  ⟨fun a => if a = 0 then setCell (setCell solvedBoard 8 8 0) 8 7 0 else fun _ _ => 0,
    [0, 1], 0, [], []⟩

/-- Every frame recorded in the log whose board leaves a candidate at its position is
followed in the log by the application of `IterateNext` to that position. -/
def FramesIterate (log : List Event) : Prop :=
  ∀ r c state, Event.enter r c state ∈ log → allowedSet state r c ≠ [] →
    Event.iterate r c (IterateNext r c) ∈ log

theorem String_append_assoc (a b c : String) : a ++ b ++ c = a ++ (b ++ c) := by
  apply String.ext
  simp [String.append, List.append_assoc]

theorem String_append_empty (a : String) : a ++ "" = a := by
  apply String.ext
  simp [String.append]

theorem toString_digit (v : Int) (h1 : 0 ≤ v) (h2 : v ≤ 9) (h0 : v ≠ 0) :
    toString v = String.singleton (Nat.digitChar v.toNat) := by
  interval_cases v <;> first | (exact absurd rfl h0) | rfl

theorem cellText_eq_cellGlyph (v : Int) (h1 : 0 ≤ v) (h2 : v ≤ 9) : cellText v = cellGlyph v := by
  unfold cellText cellGlyph
  split
  · rfl
  · rw [toString_digit v h1 h2 (by assumption)]

theorem foldl_append_start (g : Nat → String) (l : List Nat) (out : String) :
    l.foldl (fun out c => out ++ g c) out = out ++ l.foldl (fun out c => out ++ g c) "" := by
  induction l using List.reverseRecOn with
  | nil => simp [String_append_empty]
  | append_singleton l a ih =>
    simp only [List.foldl_append, List.foldl_cons, List.foldl_nil]
    rw [ih, String_append_assoc]

theorem printRowCells_eq_foldl (board : Board) (row : Nat) (out : String) :
    printRowCells board row out =
      (List.range kSize).foldl
        (fun out column => out ++ (cellText (board row column) ++ columnGap column)) out := by
  unfold printRowCells
  apply List.foldl_ext
  intro a c _
  simp only []
  have hcell : (if board row c = 0 then a ++ "_" else a ++ toString (board row c))
      = a ++ cellText (board row c) := by
    unfold cellText
    split <;> rfl
  rw [hcell]
  unfold columnGap
  split
  · split
    · simp only [String_append_assoc]
    · simp only [String_append_assoc]
  · simp [String_append_assoc, String_append_empty]

theorem printRowCells_start (board : Board) (row : Nat) (out : String) :
    printRowCells board row out = out ++ printRowCells board row "" := by
  rw [printRowCells_eq_foldl, printRowCells_eq_foldl, foldl_append_start]

theorem printRowCells_layout (board : Board) (row : Nat) (out : String)
    (h : ∀ c, c < 9 → 0 ≤ board row c ∧ board row c ≤ 9) :
    printRowCells board row out = out ++ rowLayout board row := by
  rw [printRowCells_eq_foldl board row out]
  simp only [List.range, List.range.loop, List.foldl, columnGap, rowLayout]
  rw [cellText_eq_cellGlyph _ (h 0 (by omega)).1 (h 0 (by omega)).2,
    cellText_eq_cellGlyph _ (h 1 (by omega)).1 (h 1 (by omega)).2,
    cellText_eq_cellGlyph _ (h 2 (by omega)).1 (h 2 (by omega)).2,
    cellText_eq_cellGlyph _ (h 3 (by omega)).1 (h 3 (by omega)).2,
    cellText_eq_cellGlyph _ (h 4 (by omega)).1 (h 4 (by omega)).2,
    cellText_eq_cellGlyph _ (h 5 (by omega)).1 (h 5 (by omega)).2,
    cellText_eq_cellGlyph _ (h 6 (by omega)).1 (h 6 (by omega)).2,
    cellText_eq_cellGlyph _ (h 7 (by omega)).1 (h 7 (by omega)).2,
    cellText_eq_cellGlyph _ (h 8 (by omega)).1 (h 8 (by omega)).2]
  simp [String_append_assoc, String_append_empty]

theorem PrintBoard_eq_foldl (board : Board) (out : String) :
    PrintBoard out board =
      (List.range kSize).foldl
        (fun acc row => acc ++ (printRowCells board row "" ++ rowEnd row)) out := by
  unfold PrintBoard
  apply List.foldl_ext
  intro acc row _
  simp only []
  rw [printRowCells_start board row acc]
  unfold rowEnd
  split <;> simp only [String_append_assoc]

/-! ## Position arithmetic -/

/-- C8: `IterateNext` returns `(row, column + 1)` when `column < 8` and `(row + 1, 0)`
otherwise; applying it `k` times to `(0, 0)`, for `k` from 0 to 80, yields
`(k / 9, k % 9)`; every cell of the board is reached at exactly one such `k`; and among
these positions `IsAtBottomRight` holds exactly at `k = 80`, the position `(8, 8)`. -/
theorem IterateNext_row_major :
    (∀ row column : Nat,
      IterateNext row column = if column < 8 then (row, column + 1) else (row + 1, 0)) ∧
    (∀ k : Fin 81,
      (fun p : Nat × Nat => IterateNext p.1 p.2)^[k.val] (0, 0) = (k.val / 9, k.val % 9)) ∧
    (∀ r c : Fin 9, ∃! k : Fin 81,
      (fun p : Nat × Nat => IterateNext p.1 p.2)^[k.val] (0, 0) = (r.val, c.val)) ∧
    (∀ k : Fin 81, IsAtBottomRight (k.val / 9) (k.val % 9) = true ↔ k.val = 80) ∧
    (80 / 9, 80 % 9) = (8, 8) := by
  have hstep : ∀ row column : Nat,
      IterateNext row column = if column < 8 then (row, column + 1) else (row + 1, 0) := by
    intro row column
    rfl
  have hiter : ∀ k : Nat, k ≤ 80 →
      (fun p : Nat × Nat => IterateNext p.1 p.2)^[k] (0, 0) = (k / 9, k % 9) := by
    intro k
    induction k with
    | zero => intro _; rfl
    | succ n ih =>
      intro hn
      rw [Function.iterate_succ_apply', ih (by omega)]
      simp only [hstep]
      split
      · refine Prod.ext ?_ ?_ <;> simp <;> omega
      · refine Prod.ext ?_ ?_ <;> simp <;> omega
  refine ⟨hstep, fun k => hiter k.val (by omega), ?_, ?_, rfl⟩
  · intro r c
    refine ⟨⟨9 * r.val + c.val, by omega⟩, ?_, ?_⟩
    · show _ = _
      rw [hiter _ (by omega)]
      refine Prod.ext ?_ ?_ <;> simp <;> omega
    · intro k hk
      rw [hiter k.val (by omega)] at hk
      have h1 := congrArg Prod.fst hk
      have h2 := congrArg Prod.snd hk
      simp only at h1 h2
      apply Fin.ext
      show k.val = 9 * r.val + c.val
      omega
  · intro k
    unfold IsAtBottomRight
    simp only [Bool.and_eq_true, decide_eq_true_eq, kSize]
    omega

/-! ## Printing -/

/-- C9: for a board whose cells are in 0..9, the text printed for each row is the nine
cells in column order, an empty cell as an underscore and any other as its decimal digit,
with one space between adjacent columns, one more after columns 2 and 5 and none after
column 8; `PrintBoard` prints these row texts in row order, each followed by the line
ends of the source. -/
theorem PrintBoard_row_layout (board : Board) (out : String)
    (h : ∀ r c, r < 9 → c < 9 → 0 ≤ board r c ∧ board r c ≤ 9) :
    (∀ row, row < 9 → ∀ acc, printRowCells board row acc = acc ++ rowLayout board row) ∧
    PrintBoard out board =
      (List.range 9).foldl (fun acc row =>
        acc ++ rowLayout board row ++ (if row % 3 = 2 ∧ row < 8 then "\n" ++ "\n" else "\n")) out := by
  have hrow : ∀ row, row < 9 → ∀ acc, printRowCells board row acc = acc ++ rowLayout board row :=
    fun row hr acc => printRowCells_layout board row acc (fun c hc => h row c hr hc)
  refine ⟨hrow, ?_⟩
  unfold PrintBoard
  apply List.foldl_ext
  intro acc row hmem
  have hr : row < 9 := by simpa using hmem
  simp only []
  rw [hrow row hr]
  simp only [kSize, Nat.reduceSub]
  split <;> simp [String_append_assoc]

/-- Witness of C9 on the board with every cell empty. -/
theorem PrintBoard_row_layout_witness :
    (∀ row, row < 9 → ∀ acc, printRowCells emptyBoard row acc = acc ++ rowLayout emptyBoard row) ∧
    PrintBoard "" emptyBoard =
      (List.range 9).foldl (fun acc row =>
        acc ++ rowLayout emptyBoard row ++ (if row % 3 = 2 ∧ row < 8 then "\n" ++ "\n" else "\n")) "" :=
  PrintBoard_row_layout emptyBoard "" (fun _ _ _ _ => ⟨le_refl 0, (by decide : (0 : Int) ≤ 9)⟩)

/-- Counterexample to C10 as stated: on the empty board the printed text differs from the
layout with a blank line between consecutive rows; its first 21 characters are row 0, a
single line end, and the first cell of row 1. -/
theorem PrintBoard_blank_line_counterexample :
    PrintBoard "" emptyBoard ≠ blankLineLayout emptyBoard ∧
    (PrintBoard "" emptyBoard).data.take 21 = "_ _ _  _ _ _  _ _ _\n_".data := by
  decide

/-- C10, amended: each row of the board is ended by a single line end, so that
consecutive rows stand on consecutive lines with no blank line between them; exactly one
blank line is printed between rows 2 and 3 and between rows 5 and 6, and nothing follows
the line end of row 8. -/
theorem PrintBoard_row_arrangement (board : Board) (out : String) :
    PrintBoard out board =
      out ++ printRowCells board 0 "" ++ "\n" ++ printRowCells board 1 "" ++ "\n" ++
        printRowCells board 2 "" ++ "\n" ++ "\n" ++
        printRowCells board 3 "" ++ "\n" ++ printRowCells board 4 "" ++ "\n" ++
        printRowCells board 5 "" ++ "\n" ++ "\n" ++
        printRowCells board 6 "" ++ "\n" ++ printRowCells board 7 "" ++ "\n" ++
        printRowCells board 8 "" ++ "\n" := by
  rw [PrintBoard_eq_foldl]
  simp only [List.range, List.range.loop, List.foldl, rowEnd]
  simp [String_append_assoc]

/-! ## Constraint evaluation -/

theorem mem_eraseValue (values : List Int) (x v : Int) :
    v ∈ eraseValue values x ↔ v ∈ values ∧ x ≠ v := by
  unfold eraseValue
  simp only [List.mem_filter, decide_eq_true_eq]
  constructor
  · rintro ⟨h1, h2⟩
    exact ⟨h1, fun h => h2 h.symm⟩
  · rintro ⟨h1, h2⟩
    exact ⟨h1, fun h => h2 h.symm⟩

theorem mem_foldl_step {β : Type} (g : List Int → β → List Int) (P : β → Prop) (v : Int)
    (hg : ∀ vs i, v ∈ g vs i ↔ v ∈ vs ∧ P i) (l : List β) (values : List Int) :
    v ∈ l.foldl g values ↔ v ∈ values ∧ ∀ i ∈ l, P i := by
  induction l generalizing values with
  | nil => simp
  | cons a l ih =>
    simp only [List.foldl_cons, ih, hg, List.mem_cons, forall_eq_or_imp]
    tauto

theorem nodup_foldl_step {β : Type} (g : List Int → β → List Int)
    (hg : ∀ vs i, vs.Nodup → (g vs i).Nodup) (l : List β) (values : List Int)
    (h : values.Nodup) : (l.foldl g values).Nodup := by
  induction l generalizing values with
  | nil => simpa using h
  | cons a l ih => exact ih _ (hg _ _ h)

theorem nodup_eraseValue (values : List Int) (x : Int) (h : values.Nodup) :
    (eraseValue values x).Nodup :=
  List.Nodup.filter _ h

theorem mem_AllowedInRow (board : Board) (values : List Int) (row : Nat) (v : Int) :
    v ∈ AllowedInRow board values row ↔ v ∈ values ∧ ∀ c, c < 9 → board row c ≠ v := by
  unfold AllowedInRow
  rw [mem_foldl_step _ (fun c => board row c ≠ v) v (fun vs i => mem_eraseValue vs _ v)]
  simp

theorem mem_AllowedInColumn (board : Board) (values : List Int) (column : Nat) (v : Int) :
    v ∈ AllowedInColumn board values column ↔ v ∈ values ∧ ∀ r, r < 9 → board r column ≠ v := by
  unfold AllowedInColumn
  rw [mem_foldl_step _ (fun r => board r column ≠ v) v (fun vs i => mem_eraseValue vs _ v)]
  simp

theorem mem_AllowedInBox (board : Board) (values : List Int) (row column : Nat) (v : Int) :
    v ∈ AllowedInBox board values row column ↔
      v ∈ values ∧
        ∀ i, i < 3 → ∀ j, j < 3 → board (row - row % 3 + i) (column - column % 3 + j) ≠ v := by
  unfold AllowedInBox
  rw [mem_foldl_step _
    (fun i => ∀ j, j < 3 → board (row - row % 3 + i) (column - column % 3 + j) ≠ v) v]
  · simp
  · intro vs i
    rw [mem_foldl_step _ (fun j => board (row - row % 3 + i) (column - column % 3 + j) ≠ v) v
      (fun vs j => mem_eraseValue vs _ v)]
    simp

theorem mem_allowedSet (board : Board) (row column : Nat) (v : Int) :
    v ∈ allowedSet board row column ↔
      (1 ≤ v ∧ v ≤ 9) ∧ (∀ c, c < 9 → board row c ≠ v) ∧ (∀ r, r < 9 → board r column ≠ v) ∧
        ∀ i, i < 3 → ∀ j, j < 3 → board (row - row % 3 + i) (column - column % 3 + j) ≠ v := by
  unfold allowedSet
  rw [mem_AllowedInBox, mem_AllowedInColumn, mem_AllowedInRow]
  have hd : v ∈ ([1, 2, 3, 4, 5, 6, 7, 8, 9] : List Int) ↔ 1 ≤ v ∧ v ≤ 9 := by
    simp only [List.mem_cons, List.mem_singleton, List.not_mem_nil, or_false]
    omega
  rw [hd]
  tauto

theorem nodup_allowedSet (board : Board) (row column : Nat) :
    (allowedSet board row column).Nodup := by
  unfold allowedSet AllowedInBox AllowedInColumn AllowedInRow
  refine nodup_foldl_step _ (fun vs i h => nodup_foldl_step _ (fun vs j h => nodup_eraseValue _ _ h) _ _ h) _ _ ?_
  refine nodup_foldl_step _ (fun vs j h => nodup_eraseValue _ _ h) _ _ ?_
  refine nodup_foldl_step _ (fun vs j h => nodup_eraseValue _ _ h) _ _ ?_
  decide

theorem GetAllowedValues_allowed_eq (sh : Shuffler) (w : World) (board row column : Nat) :
    (GetAllowedValues sh w board row column).allowed = allowedSet (w.heap board) row column := by
  simp only [GetAllowedValues, allowedSet]

/-- C3: whatever the static scratch set held before, the set computed by
`GetAllowedValues` is {1..9} minus the union of the values present in the row, in the
column and in the 3x3 box with top-left corner `(row - row % 3, column - column % 3)`; it
holds no value twice, depends only on the board contents and the cell, lies within 1..9,
and holds no value that occurs in the row of the cell. -/
theorem GetAllowedValues_allowed (sh : Shuffler) (w : World) (board row column : Nat) :
    (GetAllowedValues sh w board row column).allowed.toFinset =
        Finset.Icc 1 9 \
          (rowValues (w.heap board) row ∪ columnValues (w.heap board) column ∪
            boxValues (w.heap board) row column) ∧
    (GetAllowedValues sh w board row column).allowed.Nodup ∧
    (∀ (sh2 : Shuffler) (w2 : World) (board2 : Nat), w2.heap board2 = w.heap board →
      (GetAllowedValues sh2 w2 board2 row column).allowed =
        (GetAllowedValues sh w board row column).allowed) ∧
    (∀ v ∈ (GetAllowedValues sh w board row column).allowed, 1 ≤ v ∧ v ≤ 9) ∧
    (∀ c, c < 9 → w.heap board row c ∉ (GetAllowedValues sh w board row column).allowed) := by
  simp only [GetAllowedValues_allowed_eq]
  refine ⟨?_, nodup_allowedSet _ _ _, ?_, ?_, ?_⟩
  · ext v
    simp only [List.mem_toFinset, mem_allowedSet, Finset.mem_sdiff, Finset.mem_Icc,
      Finset.mem_union, rowValues, columnValues, boxValues, Finset.mem_image, Finset.mem_range,
      Finset.mem_product, Prod.exists, not_or, not_exists, not_and]
    constructor
    · rintro ⟨h1, h2, h3, h4⟩
      exact ⟨h1, ⟨fun c hc => h2 c hc, fun r hr => h3 r hr⟩, fun i j hij => h4 i hij.1 j hij.2⟩
    · rintro ⟨h1, ⟨h2, h3⟩, h4⟩
      exact ⟨h1, fun c hc => h2 c hc, fun r hr => h3 r hr, fun i hi j hj => h4 i j ⟨hi, hj⟩⟩
  · intro sh2 w2 board2 h
    rw [h]
  · intro v hv
    exact ((mem_allowedSet _ _ _ _).1 hv).1
  · intro c hc hmem
    exact ((mem_allowedSet _ _ _ _).1 hmem).2.1 c hc rfl

/-! ## Heap bookkeeping -/

@[simp] theorem store_heap (w : World) (addr : Nat) (b : Board) (a : Nat) :
    (w.store addr b).heap a = if a = addr then b else w.heap a := rfl

@[simp] theorem store_live (w : World) (addr : Nat) (b : Board) : (w.store addr b).live = w.live := rfl

@[simp] theorem store_clock (w : World) (addr : Nat) (b : Board) :
    (w.store addr b).clock = w.clock := rfl

@[simp] theorem alloc_heap (w : World) (addr : Nat) : (w.alloc addr).heap = w.heap := rfl

@[simp] theorem alloc_live (w : World) (addr : Nat) : (w.alloc addr).live = addr :: w.live := rfl

@[simp] theorem alloc_clock (w : World) (addr : Nat) : (w.alloc addr).clock = w.clock := rfl

@[simp] theorem free_heap (w : World) (addr : Nat) : (w.free addr).heap = w.heap := rfl

@[simp] theorem free_live (w : World) (addr : Nat) : (w.free addr).live = w.live.erase addr := rfl

@[simp] theorem free_clock (w : World) (addr : Nat) : (w.free addr).clock = w.clock := rfl

@[simp] theorem GetAllowedValues_heap (sh : Shuffler) (w : World) (board row column : Nat) :
    (GetAllowedValues sh w board row column).heap = w.heap := by
  simp only [GetAllowedValues]

@[simp] theorem GetAllowedValues_live (sh : Shuffler) (w : World) (board row column : Nat) :
    (GetAllowedValues sh w board row column).live = w.live := by
  simp only [GetAllowedValues]

@[simp] theorem GetAllowedValues_clock (sh : Shuffler) (w : World) (board row column : Nat) :
    (GetAllowedValues sh w board row column).clock = w.clock + 1 := by
  simp only [GetAllowedValues]

theorem GetAllowedValues_shuffled (sh : Shuffler) (w : World) (board row column : Nat) :
    (GetAllowedValues sh w board row column).shuffled =
      sh.run w.clock (allowedSet (w.heap board) row column) := by
  simp only [GetAllowedValues, allowedSet]

theorem SameCells.refl (a : Board) : SameCells a a := fun _ _ _ _ => rfl

theorem Copy_congr (a b dst : Board) (h : SameCells a b) : Copy a dst = Copy b dst := by
  funext r c
  unfold Copy
  split
  · rename_i hrc
    exact h r hrc.1 c hrc.2
  · rfl

theorem SameCells_Copy (a dst : Board) : SameCells (Copy a dst) a := by
  intro r hr c hc
  simp [Copy, hr, hc]

theorem SameCells_setCell (a b : Board) (row column : Nat) (v : Int)
    (h : ∀ r, r < 9 → ∀ c, c < 9 → ¬(r = row ∧ c = column) → a r c = b r c) :
    SameCells (setCell a row column v) (setCell b row column v) := by
  intro r hr c hc
  unfold setCell
  split
  · rfl
  · exact h r hr c hc (by assumption)

theorem allowedSet_congr (a b : Board) (row column : Nat) (hr : row < 9) (hc : column < 9)
    (h : SameCells a b) : allowedSet a row column = allowedSet b row column := by
  have hrow : ∀ vs, AllowedInRow a vs row = AllowedInRow b vs row := by
    intro vs
    unfold AllowedInRow
    apply List.foldl_ext
    intro acc c hmem
    rw [h row hr c (by simpa using hmem)]
  have hcol : ∀ vs, AllowedInColumn a vs column = AllowedInColumn b vs column := by
    intro vs
    unfold AllowedInColumn
    apply List.foldl_ext
    intro acc r hmem
    rw [h r (by simpa using hmem) column hc]
  have hbox : ∀ vs, AllowedInBox a vs row column = AllowedInBox b vs row column := by
    intro vs
    unfold AllowedInBox
    apply List.foldl_ext
    intro acc i hi
    apply List.foldl_ext
    intro acc2 j hj
    have hi3 : i < 3 := by simpa using hi
    have hj3 : j < 3 := by simpa using hj
    rw [h _ (by omega) _ (by omega)]
  unfold allowedSet
  rw [hrow, hcol, hbox]

/-! ## The heap search refines the functional search -/

theorem Refines.intro {w : World} {output : Nat} {live2 : List Nat} {keep : Nat → Prop}
    {res : RecursionResult} {b2 : Board} {clk2 : Nat} {h : Option (RecursionResult × World)}
    (w2 : World) (h1 : h = some (res, w2)) (h2 : w2.live = live2) (h3 : w2.clock = clk2)
    (h4 : ∀ a, a ∈ w.live → a ≠ output → keep a → w2.heap a = w.heap a)
    (h5 : res = RecursionResult.kFailed → w2.heap output = w.heap output)
    (h6 : res = RecursionResult.kComplete → w2.heap output = Copy b2 (w.heap output)) :
    Refines w output live2 keep (some (res, b2, clk2)) h :=
  ⟨w2, h1, h2, h3, h4, h5, h6⟩

theorem Refines.elim {w : World} {output : Nat} {live2 : List Nat} {keep : Nat → Prop}
    {res : RecursionResult} {b2 : Board} {clk2 : Nat} {h : Option (RecursionResult × World)}
    (hr : Refines w output live2 keep (some (res, b2, clk2)) h) :
    ∃ w2, h = some (res, w2) ∧ w2.live = live2 ∧ w2.clock = clk2 ∧
      (∀ a, a ∈ w.live → a ≠ output → keep a → w2.heap a = w.heap a) ∧
      (res = RecursionResult.kFailed → w2.heap output = w.heap output) ∧
      (res = RecursionResult.kComplete → w2.heap output = Copy b2 (w.heap output)) :=
  hr

theorem Refines.elim_none {w : World} {output : Nat} {live2 : List Nat} {keep : Nat → Prop}
    {h : Option (RecursionResult × World)} (hr : Refines w output live2 keep none h) :
    h = none :=
  hr

theorem searchLoop_nil (recP : Nat → Board → Option (RecursionResult × Board × Nat))
    (row column : Nat) (b : Board) (clk : Nat) :
    searchLoop recP row column b [] clk = some (RecursionResult.kFailed, b, clk) := rfl

theorem searchLoop_last (recP : Nat → Board → Option (RecursionResult × Board × Nat))
    (row column : Nat) (b : Board) (v : Int) (rest : List Int) (clk : Nat)
    (hbr : IsAtBottomRight row column = true) :
    searchLoop recP row column b (v :: rest) clk =
      some (RecursionResult.kComplete, setCell b row column v, clk) := by
  simp only [searchLoop, hbr, if_true]

theorem searchLoop_none (recP : Nat → Board → Option (RecursionResult × Board × Nat))
    (row column : Nat) (b : Board) (v : Int) (rest : List Int) (clk : Nat)
    (hbr : ¬IsAtBottomRight row column = true)
    (h : recP clk (setCell b row column v) = none) :
    searchLoop recP row column b (v :: rest) clk = none := by
  simp only [searchLoop, hbr, Bool.false_eq_true, if_false, h]

theorem searchLoop_complete (recP : Nat → Board → Option (RecursionResult × Board × Nat))
    (row column : Nat) (b : Board) (v : Int) (rest : List Int) (clk : Nat)
    (hbr : ¬IsAtBottomRight row column = true) (b2 : Board) (clk2 : Nat)
    (h : recP clk (setCell b row column v) = some (RecursionResult.kComplete, b2, clk2)) :
    searchLoop recP row column b (v :: rest) clk = some (RecursionResult.kComplete, b2, clk2) := by
  simp only [searchLoop, hbr, Bool.false_eq_true, if_false, h]

theorem searchLoop_failed (recP : Nat → Board → Option (RecursionResult × Board × Nat))
    (row column : Nat) (b : Board) (v : Int) (rest : List Int) (clk : Nat)
    (hbr : ¬IsAtBottomRight row column = true) (b2 : Board) (clk2 : Nat)
    (h : recP clk (setCell b row column v) = some (RecursionResult.kFailed, b2, clk2)) :
    searchLoop recP row column b (v :: rest) clk = searchLoop recP row column b rest clk2 := by
  simp only [searchLoop, hbr, Bool.false_eq_true, if_false, h]

theorem tryCandidates_nil (recH : World → Option (RecursionResult × World))
    (state output row column : Nat) (w : World) :
    tryCandidates recH state output row column [] w =
      some (RecursionResult.kFailed, w.free state) := rfl

theorem tryCandidates_last (recH : World → Option (RecursionResult × World))
    (state output row column : Nat) (v : Int) (rest : List Int) (w : World)
    (hbr : IsAtBottomRight row column = true) :
    tryCandidates recH state output row column (v :: rest) w =
      some (RecursionResult.kComplete,
        ((w.store state (setCell (w.heap state) row column v)).store output
          (Copy ((w.store state (setCell (w.heap state) row column v)).heap state)
            ((w.store state (setCell (w.heap state) row column v)).heap output))).free state) := by
  simp only [tryCandidates, hbr, if_true]

theorem tryCandidates_none (recH : World → Option (RecursionResult × World))
    (state output row column : Nat) (v : Int) (rest : List Int) (w : World)
    (hbr : ¬IsAtBottomRight row column = true)
    (h : recH (w.store state (setCell (w.heap state) row column v)) = none) :
    tryCandidates recH state output row column (v :: rest) w = none := by
  simp only [tryCandidates, hbr, Bool.false_eq_true, if_false, h]

theorem tryCandidates_complete (recH : World → Option (RecursionResult × World))
    (state output row column : Nat) (v : Int) (rest : List Int) (w : World)
    (hbr : ¬IsAtBottomRight row column = true) (w2 : World)
    (h : recH (w.store state (setCell (w.heap state) row column v)) =
      some (RecursionResult.kComplete, w2)) :
    tryCandidates recH state output row column (v :: rest) w =
      some (RecursionResult.kComplete, w2.free state) := by
  simp only [tryCandidates, hbr, Bool.false_eq_true, if_false, h]

theorem tryCandidates_failed (recH : World → Option (RecursionResult × World))
    (state output row column : Nat) (v : Int) (rest : List Int) (w : World)
    (hbr : ¬IsAtBottomRight row column = true) (w2 : World)
    (h : recH (w.store state (setCell (w.heap state) row column v)) =
      some (RecursionResult.kFailed, w2)) :
    tryCandidates recH state output row column (v :: rest) w =
      tryCandidates recH state output row column rest w2 := by
  simp only [tryCandidates, hbr, Bool.false_eq_true, if_false, h]

theorem tryCandidates_refines
    (recP : Nat → Board → Option (RecursionResult × Board × Nat))
    (recH : World → Option (RecursionResult × World))
    (state output row column : Nat) (b : Board) (hso : state ≠ output)
    (hrec : ¬IsAtBottomRight row column = true →
      ∀ (w : World) (b1 : Board), state ∈ w.live → output ∈ w.live →
      SameCells (w.heap state) b1 →
      Refines w output w.live (fun _ => True) (recP w.clock b1) (recH w))
    (cands : List Int) (w : World) (hs : state ∈ w.live) (ho : output ∈ w.live)
    (hb : ∀ r, r < 9 → ∀ c, c < 9 → ¬(r = row ∧ c = column) → w.heap state r c = b r c) :
    Refines w output (w.live.erase state) (fun a => a ≠ state)
      (searchLoop recP row column b cands w.clock)
      (tryCandidates recH state output row column cands w) := by
  induction cands generalizing w with
  | nil =>
    rw [searchLoop_nil, tryCandidates_nil]
    exact Refines.intro _ rfl rfl rfl (fun _ _ _ _ => rfl) (fun _ => rfl) (fun h => by cases h)
  | cons v rest ih =>
    have hsame : SameCells (setCell (w.heap state) row column v) (setCell b row column v) :=
      SameCells_setCell _ _ _ _ _ hb
    by_cases hbr : IsAtBottomRight row column = true
    · rw [searchLoop_last _ _ _ _ _ _ _ hbr, tryCandidates_last _ _ _ _ _ _ _ _ hbr]
      refine Refines.intro _ rfl rfl rfl ?_ (fun h => by cases h) (fun _ => ?_)
      · intro a _ hao has
        simp [hao, has]
      · simp only [free_heap, store_heap, if_true, if_neg hso, if_neg (Ne.symm hso)]
        exact Copy_congr _ _ _ hsame
    · have hstep := hrec hbr (w.store state (setCell (w.heap state) row column v))
        (setCell b row column v) (by simpa using hs) (by simpa using ho)
        (by simpa using hsame)
      simp only [store_clock, store_live] at hstep
      cases hp : recP w.clock (setCell b row column v) with
      | none =>
        rw [hp] at hstep
        rw [searchLoop_none _ _ _ _ _ _ _ hbr hp,
          tryCandidates_none _ _ _ _ _ _ _ _ hbr hstep.elim_none]
        rfl
      | some val =>
        obtain ⟨res, b2, clk2⟩ := val
        rw [hp] at hstep
        obtain ⟨w2, hw2, hlive, hclk, hkeep, hfail, hdone⟩ := hstep.elim
        have hkeep2 : ∀ a, a ∈ w.live → a ≠ output → a ≠ state → w2.heap a = w.heap a := by
          intro a ha hao has
          rw [hkeep a (by simpa using ha) hao trivial]
          simp [has]
        cases res with
        | kComplete =>
          rw [searchLoop_complete _ _ _ _ _ _ _ hbr _ _ hp,
            tryCandidates_complete _ _ _ _ _ _ _ _ hbr _ hw2]
          refine Refines.intro _ rfl (by simp [hlive]) hclk hkeep2 (fun h => by cases h) (fun _ => ?_)
          rw [free_heap, hdone rfl]
          simp [Ne.symm hso]
        | kFailed =>
          rw [searchLoop_failed _ _ _ _ _ _ _ hbr _ _ hp,
            tryCandidates_failed _ _ _ _ _ _ _ _ hbr _ hw2]
          have hstate : w2.heap state = setCell (w.heap state) row column v := by
            rw [hkeep state (by simpa using hs) hso trivial]
            simp
          have hout : w2.heap output = w.heap output := by
            rw [hfail rfl]
            simp [Ne.symm hso]
          have hih := ih w2 (by rw [hlive]; exact hs) (by rw [hlive]; exact ho) (by
            intro r hr c hc hne
            rw [hstate]
            unfold setCell
            rw [if_neg hne]
            exact hb r hr c hc hne)
          rw [hclk, hlive] at hih
          cases hq : searchLoop recP row column b rest clk2 with
          | none =>
            rw [hq] at hih
            rw [hih.elim_none]
            rfl
          | some val2 =>
            obtain ⟨res3, b3, clk3⟩ := val2
            rw [hq] at hih
            obtain ⟨w3, hw3, hlive3, hclk3, hkeep3, hfail3, hdone3⟩ := hih.elim
            refine Refines.intro w3 hw3 hlive3 hclk3 ?_ ?_ ?_
            · intro a ha hao has
              rw [hkeep3 a (by rw [hlive]; exact ha) hao has, hkeep2 a ha hao has]
            · intro h
              rw [hfail3 h, hout]
            · intro h
              rw [hdone3 h, hout]

theorem CreateRecursive_zero (sh : Shuffler) (al : Allocator) (w : World)
    (old_state output row column : Nat) :
    CreateRecursive sh al 0 w old_state output row column = none := rfl

theorem CreateRecursive_succ (sh : Shuffler) (al : Allocator) (fuel : Nat) (w : World)
    (old_state output row column : Nat) :
    CreateRecursive sh al (fuel + 1) w old_state output row column =
      if (GetAllowedValues sh ((w.alloc (al.pick w.live)).store (al.pick w.live)
            (Copy (w.heap old_state) (w.heap (al.pick w.live)))) old_state row column).shuffled.length
          = 0 then
        some (RecursionResult.kFailed,
          (GetAllowedValues sh ((w.alloc (al.pick w.live)).store (al.pick w.live)
            (Copy (w.heap old_state) (w.heap (al.pick w.live)))) old_state row column).free
              (al.pick w.live))
      else
        tryCandidates
          (fun w2 => CreateRecursive sh al fuel w2 (al.pick w.live) output
            (IterateNext row column).1 (IterateNext row column).2)
          (al.pick w.live) output row column
          (GetAllowedValues sh ((w.alloc (al.pick w.live)).store (al.pick w.live)
            (Copy (w.heap old_state) (w.heap (al.pick w.live)))) old_state row column).shuffled
          (GetAllowedValues sh ((w.alloc (al.pick w.live)).store (al.pick w.live)
            (Copy (w.heap old_state) (w.heap (al.pick w.live)))) old_state row column) := rfl

theorem search_zero (sh : Shuffler) (clk : Nat) (b : Board) (row column : Nat) :
    search sh 0 clk b row column = none := rfl

theorem search_succ (sh : Shuffler) (fuel clk : Nat) (b : Board) (row column : Nat) :
    search sh (fuel + 1) clk b row column =
      if (sh.run clk (allowedSet b row column)).length = 0 then
        some (RecursionResult.kFailed, b, clk + 1)
      else
        searchLoop
          (fun clk2 b2 =>
            search sh fuel clk2 b2 (IterateNext row column).1 (IterateNext row column).2)
          row column b (sh.run clk (allowedSet b row column)) (clk + 1) := rfl

theorem IterateNext_in_range (row column : Nat) (hr : row < 9) (hc : column < 9)
    (hbr : ¬IsAtBottomRight row column = true) :
    (IterateNext row column).1 < 9 ∧ (IterateNext row column).2 < 9 ∧
      9 * (IterateNext row column).1 + (IterateNext row column).2 = 9 * row + column + 1 := by
  unfold IsAtBottomRight at hbr
  simp only [Bool.and_eq_true, decide_eq_true_eq, kSize] at hbr
  unfold IterateNext
  simp only [kSize]
  split
  · refine ⟨?_, ?_, ?_⟩ <;> simp <;> omega
  · refine ⟨?_, ?_, ?_⟩ <;> simp <;> omega

theorem CreateRecursive_refines (sh : Shuffler) (al : Allocator) (fuel : Nat) :
    ∀ (w : World) (old_state output row column : Nat) (b : Board),
      row < 9 → column < 9 → old_state ∈ w.live → output ∈ w.live →
      SameCells (w.heap old_state) b →
      Refines w output w.live (fun _ => True) (search sh fuel w.clock b row column)
        (CreateRecursive sh al fuel w old_state output row column) := by
  induction fuel with
  | zero =>
    intro w old_state output row column b _ _ _ _ _
    rfl
  | succ fuel ih =>
    intro w old_state output row column b hr hc hold hout hsame
    have hfresh := al.fresh w.live
    have hso : al.pick w.live ≠ output := fun h => hfresh (h ▸ hout)
    have hsold : old_state ≠ al.pick w.live := fun h => hfresh (h ▸ hold)
    rw [CreateRecursive_succ, search_succ]
    generalize hst : al.pick w.live = state at *
    generalize hw3 : GetAllowedValues sh ((w.alloc state).store state
      (Copy (w.heap old_state) (w.heap state))) old_state row column = w3
    have hlive3 : w3.live = state :: w.live := by rw [← hw3]; simp
    have hclock3 : w3.clock = w.clock + 1 := by rw [← hw3]; simp
    have hheap3 : ∀ a, w3.heap a =
        if a = state then Copy (w.heap old_state) (w.heap state) else w.heap a := by
      intro a
      rw [← hw3]
      simp
    have hshuf : w3.shuffled = sh.run w.clock (allowedSet b row column) := by
      rw [← hw3, GetAllowedValues_shuffled]
      simp only [store_clock, alloc_clock, store_heap, alloc_heap, if_neg hsold]
      rw [allowedSet_congr _ _ _ _ hr hc hsame]
    have herase : (state :: w.live).erase state = w.live := by simp
    rw [hshuf]
    by_cases hlen : (sh.run w.clock (allowedSet b row column)).length = 0
    · rw [if_pos hlen, if_pos hlen]
      refine Refines.intro _ rfl (by simp [hlive3]) (by simp [hclock3]) ?_ (fun _ => ?_)
        (fun h => by cases h)
      · intro a ha _ _
        have hne : a ≠ state := fun h => hfresh (h ▸ ha)
        simp [hheap3, hne]
      · simp [hheap3, Ne.symm hso]
    · rw [if_neg hlen, if_neg hlen]
      have hloop := tryCandidates_refines
        (fun clk2 b2 =>
          search sh fuel clk2 b2 (IterateNext row column).1 (IterateNext row column).2)
        (fun w2 => CreateRecursive sh al fuel w2 state output
          (IterateNext row column).1 (IterateNext row column).2)
        state output row column b hso
        (fun hbr w2 b1 hs2 ho2 hsame2 =>
          ih w2 state output _ _ b1 (IterateNext_in_range row column hr hc hbr).1
            (IterateNext_in_range row column hr hc hbr).2.1 hs2 ho2 hsame2)
        (sh.run w.clock (allowedSet b row column)) w3
        (by rw [hlive3]; simp) (by rw [hlive3]; simp [hout])
        (by
          intro r hr2 c hc2 _
          rw [hheap3, if_pos rfl]
          simp only [Copy, kSize, hr2, hc2, and_self, if_true]
          exact hsame r hr2 c hc2)
      rw [hclock3, hlive3, herase] at hloop
      cases hq : searchLoop
          (fun clk2 b2 =>
            search sh fuel clk2 b2 (IterateNext row column).1 (IterateNext row column).2)
          row column b (sh.run w.clock (allowedSet b row column)) (w.clock + 1) with
      | none =>
        rw [hq] at hloop
        rw [hloop.elim_none]
        rfl
      | some val =>
        obtain ⟨res, b2, clk2⟩ := val
        rw [hq] at hloop
        obtain ⟨w4, hw4, hlive4, hclk4, hkeep4, hfail4, hdone4⟩ := hloop.elim
        have hout3 : w3.heap output = w.heap output := by simp [hheap3, Ne.symm hso]
        refine Refines.intro w4 hw4 hlive4 hclk4 ?_ ?_ ?_
        · intro a ha hao _
          have hne : a ≠ state := fun h => hfresh (h ▸ ha)
          rw [hkeep4 a (by rw [hlive3]; simp [ha]) hao hne]
          simp [hheap3, hne]
        · intro h
          rw [hfail4 h, hout3]
        · intro h
          rw [hdone4 h, hout3]

/-! ## Validity in terms of distinct peers -/

theorem perm_digits_iff (f : Nat → Int) :
    ((List.range 9).map f).Perm digits ↔
      (∀ k, k < 9 → 1 ≤ f k ∧ f k ≤ 9) ∧
        ∀ k1, k1 < 9 → ∀ k2, k2 < 9 → k1 ≠ k2 → f k1 ≠ f k2 := by
  have hdig : ∀ v : Int, v ∈ digits ↔ 1 ≤ v ∧ v ≤ 9 := by
    intro v
    simp only [digits, List.mem_cons, List.mem_singleton, List.not_mem_nil, or_false]
    omega
  have hnd : digits.Nodup := by decide
  constructor
  · intro hp
    refine ⟨fun k hk => ?_, fun k1 h1 k2 h2 hne heq => ?_⟩
    · exact (hdig _).1 (hp.subset (List.mem_map.2 ⟨k, List.mem_range.2 hk, rfl⟩))
    · exact hne (List.inj_on_of_nodup_map (hp.nodup_iff.2 hnd) (List.mem_range.2 h1)
        (List.mem_range.2 h2) heq)
  · rintro ⟨hrange, hinj⟩
    have hnd2 : ((List.range 9).map f).Nodup := by
      refine List.Nodup.map_on ?_ (List.nodup_range 9)
      intro x hx y hy hxy
      by_contra hne
      exact hinj x (List.mem_range.1 hx) y (List.mem_range.1 hy) hne hxy
    have hsub : (List.range 9).map f ⊆ digits := by
      intro v hv
      obtain ⟨k, hk, rfl⟩ := List.mem_map.1 hv
      exact (hdig _).2 (hrange k (List.mem_range.1 hk))
    exact (List.subperm_of_subset hnd2 hsub).perm_of_length_le (by simp [digits])

theorem ValidBefore_distinct (b : Board) (h : ValidBefore b 81)
    (r c r2 c2 : Nat) (hr : r < 9) (hc : c < 9) (hr2 : r2 < 9) (hc2 : c2 < 9)
    (hne : ¬(r = r2 ∧ c = c2)) (hp : Peers r c r2 c2) : b r c ≠ b r2 c2 := by
  by_cases hlt : 9 * r2 + c2 < 9 * r + c
  · exact fun heq => (h r hr c hc (by omega)).2 r2 hr2 c2 hc2 hlt hp heq.symm
  · have hlt2 : 9 * r + c < 9 * r2 + c2 := by
      have : 9 * r + c ≠ 9 * r2 + c2 := by
        intro heq
        apply hne
        omega
      omega
    have hp2 : Peers r2 c2 r c := by
      unfold Peers at hp ⊢
      omega
    exact (h r2 hr2 c2 hc2 (by omega)).2 r hr c hc hlt2 hp2

theorem ValidSolved_of_ValidBefore (b : Board) (h : ValidBefore b 81) : ValidSolved b := by
  refine ⟨fun r hr => ?_, fun c hc => ?_, fun i hi j hj => ?_⟩
  · refine (perm_digits_iff _).2 ⟨fun k hk => (h r hr k hk (by omega)).1, ?_⟩
    intro k1 h1 k2 h2 hne
    exact ValidBefore_distinct b h r k1 r k2 hr h1 hr h2 (by omega) (Or.inl rfl)
  · refine (perm_digits_iff _).2 ⟨fun k hk => (h k hk c hc (by omega)).1, ?_⟩
    intro k1 h1 k2 h2 hne
    exact ValidBefore_distinct b h k1 c k2 c h1 hc h2 hc (by omega) (Or.inr (Or.inl rfl))
  · refine (perm_digits_iff _).2
      ⟨fun k hk => (h (3 * i + k / 3) (by omega) (3 * j + k % 3) (by omega) (by omega)).1, ?_⟩
    intro k1 h1 k2 h2 hne
    refine ValidBefore_distinct b h _ _ _ _ (by omega) (by omega) (by omega) (by omega)
      (by omega) (Or.inr (Or.inr ⟨by omega, by omega⟩))

theorem ValidBefore_of_ValidSolved (b : Board) (h : ValidSolved b) : ValidBefore b 81 := by
  obtain ⟨hrow, hcol, hbox⟩ := h
  intro r hr c hc _
  refine ⟨((perm_digits_iff _).1 (hrow r hr)).1 c hc, ?_⟩
  intro r2 hr2 c2 hc2 hlt hp
  rcases hp with hp | hp | hp
  · subst hp
    exact ((perm_digits_iff _).1 (hrow r hr)).2 c2 hc2 c hc (by omega)
  · subst hp
    exact ((perm_digits_iff _).1 (hcol c hc)).2 r2 hr2 r hr (by omega)
  · have hb := ((perm_digits_iff _).1 (hbox (r / 3) (by omega) (c / 3) (by omega))).2
      (3 * (r2 % 3) + c2 % 3) (by omega) (3 * (r % 3) + c % 3) (by omega) (by omega)
    have e1 : 3 * (r / 3) + (3 * (r2 % 3) + c2 % 3) / 3 = r2 := by omega
    have e2 : 3 * (c / 3) + (3 * (r2 % 3) + c2 % 3) % 3 = c2 := by omega
    have e3 : 3 * (r / 3) + (3 * (r % 3) + c % 3) / 3 = r := by omega
    have e4 : 3 * (c / 3) + (3 * (r % 3) + c % 3) % 3 = c := by omega
    simp only [e1, e2, e3, e4] at hb
    exact hb

/-! ## Properties of the functional search -/

theorem allowed_ne_peer (b : Board) (row column : Nat) (v : Int)
    (hv : v ∈ allowedSet b row column) (r2 c2 : Nat) (hr2 : r2 < 9) (hc2 : c2 < 9)
    (hp : Peers row column r2 c2) : b r2 c2 ≠ v := by
  obtain ⟨_, hrow, hcol, hbox⟩ := (mem_allowedSet b row column v).1 hv
  rcases hp with hp | hp | hp
  · rw [← hp]
    exact hrow c2 hc2
  · rw [← hp]
    exact hcol r2 hr2
  · have h := hbox (r2 % 3) (by omega) (c2 % 3) (by omega)
    have e1 : row - row % 3 + r2 % 3 = r2 := by omega
    have e2 : column - column % 3 + c2 % 3 = c2 := by omega
    rw [e1, e2] at h
    exact h

theorem ExtendsFrom_step (b b2 : Board) (row column : Nat) (v : Int)
    (hr : row < 9) (hc : column < 9) (hv : v ∈ allowedSet b row column)
    (h : ExtendsFrom (setCell b row column v) b2 (9 * row + column + 1)) :
    ExtendsFrom b b2 (9 * row + column) := by
  obtain ⟨hagree, hnew⟩ := h
  have hbefore : AgreeBefore b2 b (9 * row + column) := by
    intro r hr2 c hc2 hlt
    rw [hagree r hr2 c hc2 (by omega)]
    unfold setCell
    rw [if_neg (by omega)]
  refine ⟨hbefore, ?_⟩
  intro r hr2 c hc2 hle
  by_cases heq : 9 * r + c = 9 * row + column
  · have e1 : r = row := by omega
    have e2 : c = column := by omega
    subst e1 e2
    have hval : b2 r c = v := by
      rw [hagree r hr2 c hc2 (by omega)]
      simp [setCell]
    rw [hval]
    refine ⟨((mem_allowedSet b r c v).1 hv).1, ?_⟩
    intro r2 hr3 c2 hc3 hlt hp
    rw [hbefore r2 hr3 c2 hc3 hlt]
    exact allowed_ne_peer b r c v hv r2 c2 hr3 hc3 hp
  · exact hnew r hr2 c hc2 (by omega)

theorem ExtendsFrom_last (b : Board) (hfull : Board) (h : SameCells hfull b) :
    ExtendsFrom b hfull 81 := by
  refine ⟨fun r hr c hc _ => h r hr c hc, ?_⟩
  intro r hr c hc hle
  omega

theorem IsAtBottomRight_iff (row column : Nat) (hr : row < 9) (hc : column < 9) :
    IsAtBottomRight row column = true ↔ 9 * row + column = 80 := by
  unfold IsAtBottomRight
  simp only [Bool.and_eq_true, decide_eq_true_eq, kSize]
  omega

theorem searchLoop_sound (recP : Nat → Board → Option (RecursionResult × Board × Nat))
    (row column : Nat) (b : Board) (hr : row < 9) (hc : column < 9)
    (hrec : ¬IsAtBottomRight row column = true → ∀ clk b1 b2 clk2,
      recP clk b1 = some (RecursionResult.kComplete, b2, clk2) →
      ExtendsFrom b1 b2 (9 * row + column + 1))
    (cands : List Int) (hcands : ∀ v ∈ cands, v ∈ allowedSet b row column)
    (clk : Nat) (b2 : Board) (clk2 : Nat)
    (h : searchLoop recP row column b cands clk = some (RecursionResult.kComplete, b2, clk2)) :
    ExtendsFrom b b2 (9 * row + column) := by
  induction cands generalizing clk with
  | nil =>
    rw [searchLoop_nil] at h
    cases h
  | cons v rest ih =>
    have hv := hcands v (List.mem_cons_self _ _)
    have hrest : ∀ u ∈ rest, u ∈ allowedSet b row column :=
      fun u hu => hcands u (List.mem_cons_of_mem _ hu)
    by_cases hbr : IsAtBottomRight row column = true
    · rw [searchLoop_last _ _ _ _ _ _ _ hbr] at h
      have hb2 : b2 = setCell b row column v := by
        cases h
        rfl
      apply ExtendsFrom_step b b2 row column v hr hc hv
      have h80 := (IsAtBottomRight_iff row column hr hc).1 hbr
      rw [h80, hb2]
      exact ExtendsFrom_last _ _ (SameCells.refl _)
    · cases hp : recP clk (setCell b row column v) with
      | none =>
        rw [searchLoop_none _ _ _ _ _ _ _ hbr hp] at h
        cases h
      | some val =>
        obtain ⟨res, b3, clk3⟩ := val
        cases res with
        | kComplete =>
          rw [searchLoop_complete _ _ _ _ _ _ _ hbr _ _ hp] at h
          have hb2 : b3 = b2 := by
            cases h
            rfl
          subst hb2
          exact ExtendsFrom_step b b3 row column v hr hc hv (hrec hbr _ _ _ _ hp)
        | kFailed =>
          rw [searchLoop_failed _ _ _ _ _ _ _ hbr _ _ hp] at h
          exact ih hrest clk3 h

theorem search_sound (sh : Shuffler) (fuel : Nat) :
    ∀ (clk : Nat) (b : Board) (row column : Nat) (b2 : Board) (clk2 : Nat),
      row < 9 → column < 9 →
      search sh fuel clk b row column = some (RecursionResult.kComplete, b2, clk2) →
      ExtendsFrom b b2 (9 * row + column) := by
  induction fuel with
  | zero =>
    intro clk b row column b2 clk2 _ _ h
    cases h
  | succ fuel ih =>
    intro clk b row column b2 clk2 hr hc h
    rw [search_succ] at h
    by_cases hlen : (sh.run clk (allowedSet b row column)).length = 0
    · rw [if_pos hlen] at h
      cases h
    · rw [if_neg hlen] at h
      refine searchLoop_sound _ row column b hr hc ?_ _ ?_ _ b2 clk2 h
      · intro hbr clk3 b1 b3 clk4 hrec
        have hnext := IterateNext_in_range row column hr hc hbr
        have := ih clk3 b1 _ _ b3 clk4 hnext.1 hnext.2.1 hrec
        rw [hnext.2.2] at this
        exact this
      · intro v hv
        exact ((sh.perm clk _).mem_iff).1 hv

theorem searchLoop_isSome (recP : Nat → Board → Option (RecursionResult × Board × Nat))
    (row column : Nat) (b : Board)
    (hrec : ¬IsAtBottomRight row column = true → ∀ clk b1, ∃ out, recP clk b1 = some out)
    (cands : List Int) (clk : Nat) :
    ∃ out, searchLoop recP row column b cands clk = some out := by
  induction cands generalizing clk with
  | nil => exact ⟨_, searchLoop_nil _ _ _ _ _⟩
  | cons v rest ih =>
    by_cases hbr : IsAtBottomRight row column = true
    · exact ⟨_, searchLoop_last _ _ _ _ _ _ _ hbr⟩
    · obtain ⟨⟨res, b3, clk3⟩, hp⟩ := hrec hbr clk (setCell b row column v)
      cases res with
      | kComplete => exact ⟨_, searchLoop_complete _ _ _ _ _ _ _ hbr _ _ hp⟩
      | kFailed =>
        rw [searchLoop_failed _ _ _ _ _ _ _ hbr _ _ hp]
        exact ih clk3

theorem search_isSome (sh : Shuffler) (fuel : Nat) :
    ∀ (clk : Nat) (b : Board) (row column : Nat), row < 9 → column < 9 →
      81 ≤ fuel + (9 * row + column) → ∃ out, search sh fuel clk b row column = some out := by
  induction fuel with
  | zero =>
    intro clk b row column hr hc h
    omega
  | succ fuel ih =>
    intro clk b row column hr hc h
    rw [search_succ]
    by_cases hlen : (sh.run clk (allowedSet b row column)).length = 0
    · rw [if_pos hlen]
      exact ⟨_, rfl⟩
    · rw [if_neg hlen]
      apply searchLoop_isSome
      intro hbr clk3 b1
      have hnext := IterateNext_in_range row column hr hc hbr
      exact ih clk3 b1 _ _ hnext.1 hnext.2.1 (by omega)

theorem searchLoop_complete_of_mem
    (recP : Nat → Board → Option (RecursionResult × Board × Nat))
    (row column : Nat) (b : Board) (target : Int)
    (hrec : ¬IsAtBottomRight row column = true → ∀ clk b2 clk2,
      recP clk (setCell b row column target) ≠ some (RecursionResult.kFailed, b2, clk2))
    (cands : List Int) (hmem : target ∈ cands) (clk : Nat)
    (res : RecursionResult) (b2 : Board) (clk2 : Nat)
    (h : searchLoop recP row column b cands clk = some (res, b2, clk2)) :
    res = RecursionResult.kComplete := by
  induction cands generalizing clk with
  | nil => cases hmem
  | cons v rest ih =>
    by_cases hbr : IsAtBottomRight row column = true
    · rw [searchLoop_last _ _ _ _ _ _ _ hbr] at h
      cases h
      rfl
    · cases hp : recP clk (setCell b row column v) with
      | none =>
        rw [searchLoop_none _ _ _ _ _ _ _ hbr hp] at h
        cases h
      | some val =>
        obtain ⟨res3, b3, clk3⟩ := val
        cases res3 with
        | kComplete =>
          rw [searchLoop_complete _ _ _ _ _ _ _ hbr _ _ hp] at h
          cases h
          rfl
        | kFailed =>
          rw [searchLoop_failed _ _ _ _ _ _ _ hbr _ _ hp] at h
          have hne : target ≠ v := by
            intro heq
            subst heq
            exact hrec hbr clk b3 clk3 hp
          have hmem2 : target ∈ rest := by
            rcases List.mem_cons.1 hmem with h1 | h1
            · exact absurd h1 hne
            · exact h1
          exact ih hmem2 clk3 h

theorem target_mem_allowedSet (b s : Board) (row column : Nat) (hr : row < 9) (hc : column < 9)
    (hzero : ZeroFrom b (9 * row + column)) (hagree : AgreeBefore s b (9 * row + column))
    (hs : ValidBefore s 81) : s row column ∈ allowedSet b row column := by
  have hrange := (hs row hr column hc (by omega)).1
  have hcell : ∀ r2 c2, r2 < 9 → c2 < 9 → Peers row column r2 c2 → b r2 c2 ≠ s row column := by
    intro r2 c2 hr2 hc2 hp
    by_cases hlt : 9 * r2 + c2 < 9 * row + column
    · rw [← hagree r2 hr2 c2 hc2 hlt]
      exact (ValidBefore_distinct s hs row column r2 c2 hr hc hr2 hc2 (by omega) hp).symm
    · rw [hzero r2 hr2 c2 hc2 (by omega)]
      omega
  rw [mem_allowedSet]
  refine ⟨hrange, fun c hc2 => hcell row c hr hc2 (Or.inl rfl),
    fun r hr2 => hcell r column hr2 hc (Or.inr (Or.inl rfl)), fun i hi j hj => ?_⟩
  exact hcell _ _ (by omega) (by omega) (Or.inr (Or.inr ⟨by omega, by omega⟩))

theorem search_complete (sh : Shuffler) (fuel : Nat) :
    ∀ (clk : Nat) (b s : Board) (row column : Nat) (res : RecursionResult) (b2 : Board)
      (clk2 : Nat), row < 9 → column < 9 → ZeroFrom b (9 * row + column) →
      AgreeBefore s b (9 * row + column) → ValidBefore s 81 →
      search sh fuel clk b row column = some (res, b2, clk2) →
      res = RecursionResult.kComplete := by
  induction fuel with
  | zero =>
    intro clk b s row column res b2 clk2 _ _ _ _ _ h
    cases h
  | succ fuel ih =>
    intro clk b s row column res b2 clk2 hr hc hzero hagree hs h
    have htarget := target_mem_allowedSet b s row column hr hc hzero hagree hs
    have hmem : s row column ∈ sh.run clk (allowedSet b row column) :=
      ((sh.perm clk _).mem_iff).2 htarget
    rw [search_succ] at h
    have hlen : ¬(sh.run clk (allowedSet b row column)).length = 0 := by
      intro h0
      rw [List.length_eq_zero] at h0
      rw [h0] at hmem
      cases hmem
    rw [if_neg hlen] at h
    refine searchLoop_complete_of_mem _ row column b (s row column) ?_ _ hmem _ res b2 clk2 h
    intro hbr clk3 b3 clk4 hfail
    have hnext := IterateNext_in_range row column hr hc hbr
    have hres := ih clk3 (setCell b row column (s row column)) s _ _ _ b3 clk4 hnext.1 hnext.2.1
      (by
        rw [hnext.2.2]
        intro r hr2 c hc2 hle
        unfold setCell
        rw [if_neg (by omega)]
        exact hzero r hr2 c hc2 (by omega))
      (by
        rw [hnext.2.2]
        intro r hr2 c hc2 hlt
        unfold setCell
        split
        · rename_i heq
          rw [heq.1, heq.2]
        · rename_i hne
          exact hagree r hr2 c hc2 (by omega))
      hs hfail
    cases hres

/-! ## From the functional search back to `CreateRecursive` -/

theorem CreateRecursive_eq_some (sh : Shuffler) (al : Allocator) (fuel : Nat) (w : World)
    (old_state output row column : Nat) (hr : row < 9) (hc : column < 9)
    (hold : old_state ∈ w.live) (hout : output ∈ w.live) (res : RecursionResult) (w2 : World)
    (h : CreateRecursive sh al fuel w old_state output row column = some (res, w2)) :
    ∃ b2 clk2, search sh fuel w.clock (w.heap old_state) row column = some (res, b2, clk2) ∧
      w2.live = w.live ∧ w2.clock = clk2 ∧
      (∀ a, a ∈ w.live → a ≠ output → w2.heap a = w.heap a) ∧
      (res = RecursionResult.kFailed → w2.heap output = w.heap output) ∧
      (res = RecursionResult.kComplete → w2.heap output = Copy b2 (w.heap output)) := by
  have href := CreateRecursive_refines sh al fuel w old_state output row column
    (w.heap old_state) hr hc hold hout (SameCells.refl _)
  cases hp : search sh fuel w.clock (w.heap old_state) row column with
  | none =>
    rw [hp] at href
    rw [href.elim_none] at h
    cases h
  | some val =>
    obtain ⟨res3, b3, clk3⟩ := val
    rw [hp] at href
    obtain ⟨w3, hw3, hlive, hclk, hkeep, hfail, hdone⟩ := href.elim
    rw [hw3] at h
    cases h
    exact ⟨b3, clk3, rfl, hlive, hclk, fun a ha hao => hkeep a ha hao trivial, hfail, hdone⟩

theorem CreateRecursive_returns (sh : Shuffler) (al : Allocator) (fuel : Nat) (w : World)
    (old_state output row column : Nat) (hr : row < 9) (hc : column < 9)
    (hold : old_state ∈ w.live) (hout : output ∈ w.live)
    (hfuel : 81 ≤ fuel + (9 * row + column)) :
    ∃ res w2, CreateRecursive sh al fuel w old_state output row column = some (res, w2) := by
  have href := CreateRecursive_refines sh al fuel w old_state output row column
    (w.heap old_state) hr hc hold hout (SameCells.refl _)
  obtain ⟨⟨res, b2, clk2⟩, hp⟩ :=
    search_isSome sh fuel w.clock (w.heap old_state) row column hr hc hfuel
  rw [hp] at href
  obtain ⟨w3, hw3, _⟩ := href.elim
  exact ⟨res, w3, hw3⟩

theorem ExtendsFrom_congr (b b2 b3 : Board) (k : Nat) (h : ExtendsFrom b b2 k)
    (hsame : SameCells b3 b2) : ExtendsFrom b b3 k := by
  obtain ⟨hagree, hnew⟩ := h
  refine ⟨fun r hr c hc hlt => ?_, fun r hr c hc hle => ?_⟩
  · rw [hsame r hr c hc]
    exact hagree r hr c hc hlt
  · rw [hsame r hr c hc]
    refine ⟨(hnew r hr c hc hle).1, fun r2 hr2 c2 hc2 hlt hp => ?_⟩
    rw [hsame r2 hr2 c2 hc2]
    exact (hnew r hr c hc hle).2 r2 hr2 c2 hc2 hlt hp

theorem CreateRecursive_complete_extends (sh : Shuffler) (al : Allocator) (fuel : Nat)
    (w : World) (old_state output row column : Nat) (hr : row < 9) (hc : column < 9)
    (hold : old_state ∈ w.live) (hout : output ∈ w.live) (w2 : World)
    (h : CreateRecursive sh al fuel w old_state output row column =
      some (RecursionResult.kComplete, w2)) :
    ExtendsFrom (w.heap old_state) (w2.heap output) (9 * row + column) := by
  obtain ⟨b2, clk2, hsearch, _, _, _, _, hdone⟩ :=
    CreateRecursive_eq_some sh al fuel w old_state output row column hr hc hold hout _ _ h
  have hext := search_sound sh fuel _ _ _ _ _ _ hr hc hsearch
  refine ExtendsFrom_congr _ _ _ _ hext ?_
  rw [hdone rfl]
  exact SameCells_Copy _ _

theorem ValidBefore_of_ExtendsFrom (b b2 : Board) (k : Nat) (hvalid : ValidBefore b k)
    (hext : ExtendsFrom b b2 k) : ValidBefore b2 81 := by
  obtain ⟨hagree, hnew⟩ := hext
  intro r hr c hc _
  by_cases hlt : 9 * r + c < k
  · rw [hagree r hr c hc hlt]
    refine ⟨(hvalid r hr c hc hlt).1, fun r2 hr2 c2 hc2 hlt2 hp => ?_⟩
    rw [hagree r2 hr2 c2 hc2 (by omega)]
    exact (hvalid r hr c hc hlt).2 r2 hr2 c2 hc2 hlt2 hp
  · exact hnew r hr c hc (by omega)

theorem solvedBoard_valid : ValidSolved solvedBoard := by
  unfold ValidSolved
  decide

theorem ValidBefore_restrict (b b2 : Board) (k k2 : Nat) (h : ValidBefore b k) (hk : k2 ≤ k)
    (hagree : AgreeBefore b2 b k2) : ValidBefore b2 k2 := by
  intro r hr c hc hlt
  rw [hagree r hr c hc hlt]
  refine ⟨(h r hr c hc (by omega)).1, fun r2 hr2 c2 hc2 hlt2 hp => ?_⟩
  rw [hagree r2 hr2 c2 hc2 (by omega)]
  exact (h r hr c hc (by omega)).2 r2 hr2 c2 hc2 hlt2 hp

theorem AgreeBefore_setCell (b : Board) (row column : Nat) (v : Int) (k : Nat)
    (hk : k ≤ 9 * row + column) : AgreeBefore (setCell b row column v) b k := by
  intro r hr c hc hlt
  unfold setCell
  rw [if_neg (by omega)]

theorem lastCellWorld_valid : ValidBefore (lastCellWorld.heap 0) (9 * 8 + 8) :=
  ValidBefore_restrict solvedBoard _ 81 _ (ValidBefore_of_ValidSolved _ solvedBoard_valid)
    (by omega) (AgreeBefore_setCell solvedBoard 8 8 0 _ (by omega))

theorem row_sorted_of_perm (l : List Int) (h : l.Perm digits) :
    l.insertionSort (fun a b => a ≤ b) = digits := by
  apply List.eq_of_perm_of_sorted ((List.perm_insertionSort _ l).trans h)
    (List.sorted_insertionSort _ l)
  unfold digits
  decide

/-! ## Generation from the empty board -/

/-- C1: for every source of candidate orderings and every allocator, `CreateRecursive`
started at `(0, 0)` on a board whose 81 cells are 0, with that same buffer as output (as
`Run` does) and fuel for 81 nested frames, returns `kComplete`; the board it leaves in
the output buffer has every cell non-zero and every row, column and 3x3 box a
permutation of 1..9, and its row 0, sorted, is `[1, 2, 3, 4, 5, 6, 7, 8, 9]`.  The same
holds of the call made by `Run` on the board it has just allocated and filled with 0. -/
theorem CreateRecursive_from_empty (sh : Shuffler) (al : Allocator) (fuel : Nat) (w : World)
    (board : Nat) (hfuel : 81 ≤ fuel) (hlive : board ∈ w.live)
    (hzero : ∀ r, r < 9 → ∀ c, c < 9 → w.heap board r c = 0) :
    (∃ w2, CreateRecursive sh al fuel w board board 0 0 = some (RecursionResult.kComplete, w2) ∧
      (∀ r, r < 9 → ∀ c, c < 9 → w2.heap board r c ≠ 0) ∧
      ValidSolved (w2.heap board) ∧
      (rowCells (w2.heap board) 0).insertionSort (fun a b => a ≤ b) =
        [1, 2, 3, 4, 5, 6, 7, 8, 9]) ∧
    (∃ w3, Run sh al w = some (RecursionResult.kComplete, w3) ∧
      (∀ r, r < 9 → ∀ c, c < 9 → w3.heap (al.pick w.live) r c ≠ 0) ∧
      ValidSolved (w3.heap (al.pick w.live)) ∧
      (rowCells (w3.heap (al.pick w.live)) 0).insertionSort (fun a b => a ≤ b) =
        [1, 2, 3, 4, 5, 6, 7, 8, 9]) := by
  have key : ∀ (n : Nat) (v : World) (bd : Nat), 81 ≤ n → bd ∈ v.live →
      (∀ r, r < 9 → ∀ c, c < 9 → v.heap bd r c = 0) →
      ∃ w2, CreateRecursive sh al n v bd bd 0 0 = some (RecursionResult.kComplete, w2) ∧
        (∀ r, r < 9 → ∀ c, c < 9 → w2.heap bd r c ≠ 0) ∧
        ValidSolved (w2.heap bd) ∧
        (rowCells (w2.heap bd) 0).insertionSort (fun a b => a ≤ b) =
          [1, 2, 3, 4, 5, 6, 7, 8, 9] := by
    intro n v bd hn hbd hz
    obtain ⟨res, w2, hrun⟩ := CreateRecursive_returns sh al n v bd bd 0 0
      (by omega) (by omega) hbd hbd (by omega)
    obtain ⟨b2, clk2, hsearch, _⟩ := CreateRecursive_eq_some sh al n v bd bd 0 0
      (by omega) (by omega) hbd hbd res w2 hrun
    have hres : res = RecursionResult.kComplete :=
      search_complete sh n v.clock (v.heap bd) solvedBoard 0 0 res b2 clk2
        (by omega) (by omega) (fun r hr c hc _ => hz r hr c hc)
        (fun r _ c _ hlt => absurd hlt (by omega))
        (ValidBefore_of_ValidSolved _ solvedBoard_valid) hsearch
    subst hres
    have hext := CreateRecursive_complete_extends sh al n v bd bd 0 0
      (by omega) (by omega) hbd hbd w2 hrun
    have hvalid : ValidBefore (w2.heap bd) 81 :=
      ValidBefore_of_ExtendsFrom (v.heap bd) _ (9 * 0 + 0)
        (fun r _ c _ hlt => absurd hlt (by omega)) hext
    have hsolved := ValidSolved_of_ValidBefore _ hvalid
    refine ⟨w2, hrun, ?_, hsolved, row_sorted_of_perm _ (hsolved.1 0 (by omega))⟩
    intro r hr c hc h0
    have := (hvalid r hr c hc (by omega)).1
    omega
  refine ⟨key fuel w board hfuel hlive hzero, ?_⟩
  unfold Run
  apply key 81 _ _ (le_refl 81)
  · simp
  · intro r hr c hc
    simp [Fill, hr, hc]

/-- Witness of C1: the search started in the world whose only buffer is an empty board. -/
theorem CreateRecursive_from_empty_witness :
    (∃ w2, CreateRecursive Shuffler.identity Allocator.bump 81 emptyWorld 0 0 0 0 =
        some (RecursionResult.kComplete, w2) ∧
      (∀ r, r < 9 → ∀ c, c < 9 → w2.heap 0 r c ≠ 0) ∧
      ValidSolved (w2.heap 0) ∧
      (rowCells (w2.heap 0) 0).insertionSort (fun a b => a ≤ b) =
        [1, 2, 3, 4, 5, 6, 7, 8, 9]) ∧
    (∃ w3, Run Shuffler.identity Allocator.bump emptyWorld =
        some (RecursionResult.kComplete, w3) ∧
      (∀ r, r < 9 → ∀ c, c < 9 → w3.heap (Allocator.bump.pick emptyWorld.live) r c ≠ 0) ∧
      ValidSolved (w3.heap (Allocator.bump.pick emptyWorld.live)) ∧
      (rowCells (w3.heap (Allocator.bump.pick emptyWorld.live)) 0).insertionSort
        (fun a b => a ≤ b) = [1, 2, 3, 4, 5, 6, 7, 8, 9]) :=
  CreateRecursive_from_empty Shuffler.identity Allocator.bump 81 emptyWorld 0 (le_refl 81)
    (List.mem_singleton.2 rfl) (fun _ _ _ _ => rfl)

/-- C2: if the cells of the incoming board before `(row, column)` hold digits 1..9 with no
digit repeated in a row, column or box, whatever the cells from the position on hold,
and `CreateRecursive` returns `kComplete`, then in the output board every row, every
column and every 3x3 box is a permutation of 1..9. -/
theorem CreateRecursive_output_valid (sh : Shuffler) (al : Allocator) (fuel : Nat)
    (w : World) (old_state output row column : Nat) (w2 : World)
    (hr : row < 9) (hc : column < 9) (hold : old_state ∈ w.live) (hout : output ∈ w.live)
    (hvalid : ValidBefore (w.heap old_state) (9 * row + column))
    (h : CreateRecursive sh al fuel w old_state output row column =
      some (RecursionResult.kComplete, w2)) :
    ValidSolved (w2.heap output) := by
  apply ValidSolved_of_ValidBefore
  apply ValidBefore_of_ExtendsFrom (w.heap old_state) _ (9 * row + column) hvalid
  exact CreateRecursive_complete_extends sh al fuel w old_state output row column hr hc hold
    hout w2 h

/-- Witness of C2: the frame at `(8, 8)` on the solved board with its last cell emptied. -/
theorem CreateRecursive_output_valid_witness :
    ∃ w2, CreateRecursive Shuffler.identity Allocator.bump 1 lastCellWorld 0 1 8 8 =
        some (RecursionResult.kComplete, w2) ∧
      ValidBefore (lastCellWorld.heap 0) (9 * 8 + 8) ∧ ValidSolved (w2.heap 1) :=
  ⟨_, rfl, lastCellWorld_valid,
    CreateRecursive_output_valid Shuffler.identity Allocator.bump 1 lastCellWorld 0 1 8 8 _
      (by decide) (by decide) (by decide) (by decide) lastCellWorld_valid rfl⟩

/-! ## Backtracking -/

/-- C4: on a board whose cells from `(row, column)` on are all 0, if `CreateRecursive`
returns `kFailed` then no board with every row, column and box a permutation of 1..9
agrees with the incoming board on the cells before `(row, column)`; and whenever such a
board exists, the call, given fuel for the remaining cells, returns `kComplete`. -/
theorem CreateRecursive_failed_no_completion (sh : Shuffler) (al : Allocator) (fuel : Nat)
    (w : World) (old_state output row column : Nat)
    (hr : row < 9) (hc : column < 9) (hold : old_state ∈ w.live) (hout : output ∈ w.live)
    (hzero : ZeroFrom (w.heap old_state) (9 * row + column)) :
    (∀ w2, CreateRecursive sh al fuel w old_state output row column =
        some (RecursionResult.kFailed, w2) →
      ¬∃ s, ValidSolved s ∧ AgreeBefore s (w.heap old_state) (9 * row + column)) ∧
    ((∃ s, ValidSolved s ∧ AgreeBefore s (w.heap old_state) (9 * row + column)) →
      81 ≤ fuel + (9 * row + column) →
      ∃ w2, CreateRecursive sh al fuel w old_state output row column =
        some (RecursionResult.kComplete, w2)) := by
  have hkey : ∀ s, ValidSolved s → AgreeBefore s (w.heap old_state) (9 * row + column) →
      ∀ res w2, CreateRecursive sh al fuel w old_state output row column = some (res, w2) →
      res = RecursionResult.kComplete := by
    intro s hs hagree res w2 hrun
    obtain ⟨b2, clk2, hsearch, _⟩ := CreateRecursive_eq_some sh al fuel w old_state output
      row column hr hc hold hout res w2 hrun
    exact search_complete sh fuel w.clock (w.heap old_state) s row column res b2 clk2 hr hc
      hzero hagree (ValidBefore_of_ValidSolved _ hs) hsearch
  constructor
  · rintro w2 hrun ⟨s, hs, hagree⟩
    have := hkey s hs hagree _ _ hrun
    cases this
  · rintro ⟨s, hs, hagree⟩ hfuel
    obtain ⟨res, w2, hrun⟩ := CreateRecursive_returns sh al fuel w old_state output row column
      hr hc hold hout hfuel
    have hres := hkey s hs hagree _ _ hrun
    subst hres
    exact ⟨w2, hrun⟩

/-- Witness of C4: at `(8, 8)` of the dead-end board the call fails, and no valid board
agrees with the 80 cells before it. -/
theorem CreateRecursive_failed_no_completion_witness :
    ZeroFrom (deadEndWorld.heap 0) (9 * 8 + 8) ∧
    (∃ w2, CreateRecursive Shuffler.identity Allocator.bump 1 deadEndWorld 0 1 8 8 =
      some (RecursionResult.kFailed, w2)) ∧
    ¬∃ s, ValidSolved s ∧ AgreeBefore s (deadEndWorld.heap 0) (9 * 8 + 8) :=
  have hzero : ZeroFrom (deadEndWorld.heap 0) (9 * 8 + 8) := by
    intro r hr c hc hle
    have e1 : r = 8 := by omega
    have e2 : c = 8 := by omega
    subst e1 e2
    rfl
  ⟨hzero, ⟨_, rfl⟩,
    (CreateRecursive_failed_no_completion Shuffler.identity Allocator.bump 1 deadEndWorld 0 1
      8 8 (by decide) (by decide) (by decide) (by decide) hzero).1 _ rfl⟩

/-- C5: at an empty cell whose allowed-digit set is empty, `CreateRecursive` returns
`kFailed` within its own frame (one frame of fuel suffices and exactly one candidate list
is drawn), and afterwards the incoming board and the output board hold exactly what they
held before, as does the list of live buffers. -/
theorem CreateRecursive_no_candidates (sh : Shuffler) (al : Allocator) (fuel : Nat)
    (w : World) (old_state output row column : Nat)
    (_hr : row < 9) (_hc : column < 9) (hold : old_state ∈ w.live) (hout : output ∈ w.live)
    (_hcell : w.heap old_state row column = 0)
    (hempty : (GetAllowedValues sh w old_state row column).allowed = []) :
    ∃ w2, CreateRecursive sh al (fuel + 1) w old_state output row column =
        some (RecursionResult.kFailed, w2) ∧
      w2.clock = w.clock + 1 ∧ w2.live = w.live ∧
      w2.heap old_state = w.heap old_state ∧ w2.heap output = w.heap output := by
  have hfresh := al.fresh w.live
  have hso : output ≠ al.pick w.live := fun h => hfresh (h ▸ hout)
  have hsold : old_state ≠ al.pick w.live := fun h => hfresh (h ▸ hold)
  rw [GetAllowedValues_allowed_eq] at hempty
  have hshuf : (GetAllowedValues sh ((w.alloc (al.pick w.live)).store (al.pick w.live)
      (Copy (w.heap old_state) (w.heap (al.pick w.live)))) old_state row column).shuffled
      = [] := by
    rw [GetAllowedValues_shuffled]
    simp only [store_clock, alloc_clock, store_heap, alloc_heap, if_neg hsold, hempty]
    exact List.Perm.eq_nil (sh.perm _ _)
  rw [CreateRecursive_succ, hshuf]
  simp only [List.length_nil, if_true]
  refine ⟨_, rfl, ?_, ?_, ?_, ?_⟩
  · simp
  · simp
  · simp [hsold]
  · simp [hso]

/-- Witness of C5: the last cell of the dead-end board has no allowed digit. -/
theorem CreateRecursive_no_candidates_witness :
    deadEndWorld.heap 0 8 8 = 0 ∧
    (GetAllowedValues Shuffler.identity deadEndWorld 0 8 8).allowed = [] ∧
    ∃ w2, CreateRecursive Shuffler.identity Allocator.bump (0 + 1) deadEndWorld 0 1 8 8 =
        some (RecursionResult.kFailed, w2) ∧
      w2.clock = deadEndWorld.clock + 1 ∧ w2.live = deadEndWorld.live ∧
      w2.heap 0 = deadEndWorld.heap 0 ∧ w2.heap 1 = deadEndWorld.heap 1 :=
  ⟨rfl, by decide,
    CreateRecursive_no_candidates Shuffler.identity Allocator.bump 0 deadEndWorld 0 1 8 8
      (by decide) (by decide) (by decide) (by decide) rfl (by decide)⟩

/-! ## Completed boards -/

/-- C6: if `CreateRecursive` returns `kComplete`, every cell of the output board at or
after `(row, column)` in row-major order holds a value in 1..9; hence, when every cell of
the incoming board before the position is non-zero, every cell of the output board is
non-zero. -/
theorem CreateRecursive_fills_cells (sh : Shuffler) (al : Allocator) (fuel : Nat)
    (w : World) (old_state output row column : Nat) (w2 : World)
    (hr : row < 9) (hc : column < 9) (hold : old_state ∈ w.live) (hout : output ∈ w.live)
    (h : CreateRecursive sh al fuel w old_state output row column =
      some (RecursionResult.kComplete, w2)) :
    (∀ r, r < 9 → ∀ c, c < 9 → 9 * row + column ≤ 9 * r + c →
      1 ≤ w2.heap output r c ∧ w2.heap output r c ≤ 9) ∧
    ((∀ r, r < 9 → ∀ c, c < 9 → 9 * r + c < 9 * row + column → w.heap old_state r c ≠ 0) →
      ∀ r, r < 9 → ∀ c, c < 9 → w2.heap output r c ≠ 0) := by
  obtain ⟨hagree, hnew⟩ := CreateRecursive_complete_extends sh al fuel w old_state output
    row column hr hc hold hout w2 h
  refine ⟨fun r hr2 c hc2 hle => (hnew r hr2 c hc2 hle).1, ?_⟩
  intro hnz r hr2 c hc2
  by_cases hlt : 9 * r + c < 9 * row + column
  · rw [hagree r hr2 c hc2 hlt]
    exact hnz r hr2 c hc2 hlt
  · have := (hnew r hr2 c hc2 (by omega)).1
    omega

/-- Witness of C6: the frame at `(8, 8)` on the solved board with its last cell emptied. -/
theorem CreateRecursive_fills_cells_witness :
    ∃ w2, CreateRecursive Shuffler.identity Allocator.bump 1 lastCellWorld 0 1 8 8 =
        some (RecursionResult.kComplete, w2) ∧
      (∀ r, r < 9 → ∀ c, c < 9 → 9 * 8 + 8 ≤ 9 * r + c →
        1 ≤ w2.heap 1 r c ∧ w2.heap 1 r c ≤ 9) ∧
      ((∀ r, r < 9 → ∀ c, c < 9 → 9 * r + c < 9 * 8 + 8 → lastCellWorld.heap 0 r c ≠ 0) →
        ∀ r, r < 9 → ∀ c, c < 9 → w2.heap 1 r c ≠ 0) :=
  ⟨_, rfl,
    CreateRecursive_fills_cells Shuffler.identity Allocator.bump 1 lastCellWorld 0 1 8 8 _
      (by decide) (by decide) (by decide) (by decide) rfl⟩

/-! ## Frame effects -/

/-- C7: when the output buffer is distinct from the incoming board, whatever the call
returns, the incoming board holds after the call exactly the values it held before it;
and with fuel for the remaining cells the call does return. -/
theorem CreateRecursive_keeps_old_state (sh : Shuffler) (al : Allocator) (fuel : Nat)
    (w : World) (old_state output row column : Nat)
    (hr : row < 9) (hc : column < 9) (hold : old_state ∈ w.live) (hout : output ∈ w.live)
    (hne : output ≠ old_state) :
    (∀ res w2, CreateRecursive sh al fuel w old_state output row column = some (res, w2) →
      w2.heap old_state = w.heap old_state) ∧
    (81 ≤ fuel + (9 * row + column) →
      ∃ res w2, CreateRecursive sh al fuel w old_state output row column = some (res, w2) ∧
        w2.heap old_state = w.heap old_state) := by
  have hkeep : ∀ res w2,
      CreateRecursive sh al fuel w old_state output row column = some (res, w2) →
      w2.heap old_state = w.heap old_state := by
    intro res w2 hrun
    obtain ⟨b2, clk2, _, _, _, hframe, _⟩ := CreateRecursive_eq_some sh al fuel w old_state
      output row column hr hc hold hout res w2 hrun
    exact hframe old_state hold (Ne.symm hne)
  refine ⟨hkeep, fun hfuel => ?_⟩
  obtain ⟨res, w2, hrun⟩ := CreateRecursive_returns sh al fuel w old_state output row column
    hr hc hold hout hfuel
  exact ⟨res, w2, hrun, hkeep res w2 hrun⟩

/-- Witness of C7: a search of the whole board from a world with separate input and
output buffers. -/
theorem CreateRecursive_keeps_old_state_witness :
    (∀ res w2, CreateRecursive Shuffler.reversing Allocator.bump 81 lastCellWorld 0 1 0 0 =
        some (res, w2) → w2.heap 0 = lastCellWorld.heap 0) ∧
    (81 ≤ 81 + (9 * 0 + 0) →
      ∃ res w2, CreateRecursive Shuffler.reversing Allocator.bump 81 lastCellWorld 0 1 0 0 =
          some (res, w2) ∧ w2.heap 0 = lastCellWorld.heap 0) :=
  CreateRecursive_keeps_old_state Shuffler.reversing Allocator.bump 81 lastCellWorld 0 1 0 0
    (by decide) (by decide) (by decide) (by decide) (by decide)

/-! ## The candidate vector -/

/-- C15: the vector returned by `GetAllowedValues` is a permutation of the allowed-digit
set computed by the same call: every allowed digit occurs in it exactly once and no other
value occurs, its length is the size of the set, and it is empty exactly when no digit is
allowed. -/
theorem GetAllowedValues_shuffled_perm (sh : Shuffler) (w : World) (board row column : Nat) :
    (GetAllowedValues sh w board row column).shuffled.Perm
        (GetAllowedValues sh w board row column).allowed ∧
    (GetAllowedValues sh w board row column).allowed.Nodup ∧
    (∀ v, (GetAllowedValues sh w board row column).shuffled.count v =
      if v ∈ (GetAllowedValues sh w board row column).allowed then 1 else 0) ∧
    (GetAllowedValues sh w board row column).shuffled.length =
      (GetAllowedValues sh w board row column).allowed.toFinset.card ∧
    ((GetAllowedValues sh w board row column).shuffled = [] ↔
      (GetAllowedValues sh w board row column).allowed = []) := by
  rw [GetAllowedValues_shuffled, GetAllowedValues_allowed_eq]
  have hperm := sh.perm w.clock (allowedSet (w.heap board) row column)
  have hnd := nodup_allowedSet (w.heap board) row column
  refine ⟨hperm, hnd, fun v => ?_, ?_, ?_⟩
  · rw [hperm.count_eq]
    split
    · rename_i hv
      exact List.count_eq_one_of_mem hnd hv
    · rename_i hv
      exact List.count_eq_zero_of_not_mem hv
  · rw [hperm.length_eq, List.toFinset_card_of_nodup hnd]
  · constructor
    · intro h
      rw [h] at hperm
      exact hperm.symm.eq_nil
    · intro h
      rw [h] at hperm ⊢
      exact hperm.eq_nil

/-! ## Order of the eliminations -/

theorem foldl_filter_eq {β : Type} (q : β → Int → Bool) (l : List β) (values : List Int) :
    l.foldl (fun vs i => vs.filter (q i)) values =
      values.filter (fun v => l.all (fun i => q i v)) := by
  induction l generalizing values with
  | nil => simp
  | cons a l ih =>
    simp only [List.foldl_cons, ih, List.filter_filter, List.all_cons]
    congr 1
    funext v
    exact Bool.and_comm _ _

theorem AllowedInRow_eq_filter (board : Board) (values : List Int) (row : Nat) :
    AllowedInRow board values row =
      values.filter (fun v => (List.range kSize).all (fun c => decide (v ≠ board row c))) := by
  unfold AllowedInRow eraseValue
  exact foldl_filter_eq (fun c v => decide (v ≠ board row c)) _ _

theorem AllowedInColumn_eq_filter (board : Board) (values : List Int) (column : Nat) :
    AllowedInColumn board values column =
      values.filter (fun v => (List.range kSize).all (fun r => decide (v ≠ board r column))) := by
  unfold AllowedInColumn eraseValue
  exact foldl_filter_eq (fun r v => decide (v ≠ board r column)) _ _

theorem AllowedInBox_eq_filter (board : Board) (values : List Int) (row column : Nat) :
    AllowedInBox board values row column =
      values.filter (fun v => (List.range 3).all (fun i => (List.range 3).all (fun j =>
        decide (v ≠ board (row - row % 3 + i) (column - column % 3 + j))))) := by
  unfold AllowedInBox eraseValue
  have hinner : ∀ (vs : List Int) (i : Nat),
      (List.range 3).foldl (fun vs j => vs.filter
        (fun y => decide (y ≠ board (row - row % 3 + i) (column - column % 3 + j)))) vs =
      vs.filter (fun v => (List.range 3).all (fun j =>
        decide (v ≠ board (row - row % 3 + i) (column - column % 3 + j)))) := by
    intro vs i
    exact foldl_filter_eq
      (fun j v => decide (v ≠ board (row - row % 3 + i) (column - column % 3 + j))) _ _
  simp only [hinner]
  exact foldl_filter_eq (fun i v => (List.range 3).all (fun j =>
    decide (v ≠ board (row - row % 3 + i) (column - column % 3 + j)))) _ _

/-- C16: applied to any starting set, the eliminations `AllowedInRow`, `AllowedInColumn`
and `AllowedInBox` leave the same set in each of their six orders; and `GetAllowedValues`,
which runs them, leaves every board buffer as it was. -/
theorem Allowed_order_irrelevant (board : Board) (values : List Int) (row column : Nat)
    (sh : Shuffler) (w : World) (addr : Nat) :
    AllowedInBox board (AllowedInRow board (AllowedInColumn board values column) row)
        row column =
      AllowedInBox board (AllowedInColumn board (AllowedInRow board values row) column)
        row column ∧
    AllowedInColumn board (AllowedInBox board (AllowedInRow board values row) row column)
        column =
      AllowedInBox board (AllowedInColumn board (AllowedInRow board values row) column)
        row column ∧
    AllowedInRow board (AllowedInBox board (AllowedInColumn board values column) row column)
        row =
      AllowedInBox board (AllowedInColumn board (AllowedInRow board values row) column)
        row column ∧
    AllowedInColumn board (AllowedInRow board (AllowedInBox board values row column) row)
        column =
      AllowedInBox board (AllowedInColumn board (AllowedInRow board values row) column)
        row column ∧
    AllowedInRow board (AllowedInColumn board (AllowedInBox board values row column) column)
        row =
      AllowedInBox board (AllowedInColumn board (AllowedInRow board values row) column)
        row column ∧
    (GetAllowedValues sh w addr row column).heap = w.heap := by
  simp only [AllowedInRow_eq_filter, AllowedInColumn_eq_filter, AllowedInBox_eq_filter,
    List.filter_filter, GetAllowedValues_heap, and_true]
  refine ⟨?_, ?_, ?_, ?_, ?_⟩ <;>
  · congr 1
    funext v
    simp only [Bool.and_comm, Bool.and_left_comm, Bool.and_assoc]

/-! ## A solved board with one cell emptied -/

theorem eq_singleton_of_nodup (l : List Int) (a : Int) (hnd : l.Nodup)
    (hmem : ∀ v, v ∈ l ↔ v = a) : l = [a] := by
  apply List.perm_singleton.1
  apply (List.perm_ext_iff_of_nodup hnd (List.nodup_singleton a)).2
  intro v
  rw [hmem v, List.mem_singleton]

/-- C20: if the board is a valid solved board `s` with the cell `(row, column)` set to 0,
the allowed-digit set computed by `GetAllowedValues` at that cell is exactly the
singleton holding `s row column`. -/
theorem GetAllowedValues_single_gap (sh : Shuffler) (w : World) (board row column : Nat)
    (s : Board) (hs : ValidSolved s) (hr : row < 9) (hc : column < 9)
    (hb : SameCells (w.heap board) (setCell s row column 0)) :
    (GetAllowedValues sh w board row column).allowed = [s row column] ∧
    (GetAllowedValues sh w board row column).allowed.toFinset = {s row column} := by
  rw [GetAllowedValues_allowed_eq, allowedSet_congr _ _ row column hr hc hb]
  have hvalid := ValidBefore_of_ValidSolved s hs
  have hrange := (hvalid row hr column hc (by omega)).1
  have hcell : ∀ r2 c2, r2 < 9 → c2 < 9 → Peers row column r2 c2 →
      setCell s row column 0 r2 c2 ≠ s row column := by
    intro r2 c2 hr2 hc2 hp
    unfold setCell
    split
    · omega
    · rename_i hne
      exact (ValidBefore_distinct s hvalid row column r2 c2 hr hc hr2 hc2
        (fun h => hne ⟨h.1.symm, h.2.symm⟩) hp).symm
  have hlist : allowedSet (setCell s row column 0) row column = [s row column] := by
    apply eq_singleton_of_nodup _ _ (nodup_allowedSet _ _ _)
    intro v
    rw [mem_allowedSet]
    constructor
    · rintro ⟨hv, hrow, _, _⟩
      by_contra hne
      have hmem : v ∈ rowCells s row := by
        apply (hs.1 row hr).mem_iff.2
        simp only [digits, List.mem_cons, List.mem_singleton, List.not_mem_nil, or_false]
        omega
      obtain ⟨c, hc2, hcv⟩ := List.mem_map.1 hmem
      have hc9 : c < 9 := List.mem_range.1 hc2
      apply hrow c hc9
      unfold setCell
      by_cases hcc : c = column
      · subst hcc
        exact absurd hcv.symm hne
      · rw [if_neg (fun h => hcc h.2)]
        exact hcv
    · rintro rfl
      refine ⟨hrange, fun c hc2 => hcell row c hr hc2 (Or.inl rfl),
        fun r hr2 => hcell r column hr2 hc (Or.inr (Or.inl rfl)), fun i hi j hj => ?_⟩
      exact hcell _ _ (by omega) (by omega) (Or.inr (Or.inr ⟨by omega, by omega⟩))
  rw [hlist]
  exact ⟨rfl, rfl⟩

/-- Witness of C20: the last cell of the solved board emptied. -/
theorem GetAllowedValues_single_gap_witness :
    ValidSolved solvedBoard ∧
    SameCells (lastCellWorld.heap 0) (setCell solvedBoard 8 8 0) ∧
    (GetAllowedValues Shuffler.identity lastCellWorld 0 8 8).allowed = [solvedBoard 8 8] ∧
    (GetAllowedValues Shuffler.identity lastCellWorld 0 8 8).allowed.toFinset =
      {solvedBoard 8 8} :=
  ⟨solvedBoard_valid, SameCells.refl _,
    GetAllowedValues_single_gap Shuffler.identity lastCellWorld 0 8 8 solvedBoard
      solvedBoard_valid (by decide) (by decide) (SameCells.refl _)⟩

/-! ## Cells before the starting position -/

/-- C18: if `CreateRecursive` returns `kComplete`, every cell of the output board strictly
before `(row, column)` in row-major order equals the corresponding cell of the incoming
board: the search assigns only cells at or after its starting position. -/
theorem CreateRecursive_keeps_earlier_cells (sh : Shuffler) (al : Allocator) (fuel : Nat)
    (w : World) (old_state output row column : Nat) (w2 : World)
    (hr : row < 9) (hc : column < 9) (hold : old_state ∈ w.live) (hout : output ∈ w.live)
    (h : CreateRecursive sh al fuel w old_state output row column =
      some (RecursionResult.kComplete, w2)) :
    ∀ r, r < 9 → ∀ c, c < 9 → 9 * r + c < 9 * row + column →
      w2.heap output r c = w.heap old_state r c := by
  intro r hr2 c hc2 hlt
  obtain ⟨hagree, _⟩ := CreateRecursive_complete_extends sh al fuel w old_state output
    row column hr hc hold hout w2 h
  exact hagree r hr2 c hc2 hlt

/-- Witness of C18: the frame at `(8, 8)` on the solved board with its last cell emptied
copies the 80 earlier cells to the output. -/
theorem CreateRecursive_keeps_earlier_cells_witness :
    ∃ w2, CreateRecursive Shuffler.identity Allocator.bump 1 lastCellWorld 0 1 8 8 =
        some (RecursionResult.kComplete, w2) ∧
      ∀ r, r < 9 → ∀ c, c < 9 → 9 * r + c < 9 * 8 + 8 →
        w2.heap 1 r c = lastCellWorld.heap 0 r c :=
  ⟨_, rfl,
    CreateRecursive_keeps_earlier_cells Shuffler.identity Allocator.bump 1 lastCellWorld 0 1
      8 8 _ (by decide) (by decide) (by decide) (by decide) rfl⟩

/-! ## The last cell -/

/-- C12: called at `(8, 8)` with a non-empty candidate vector, `CreateRecursive` returns
`kComplete` within its own frame (one frame of fuel suffices and one candidate list is
drawn), and the output board is the incoming board with cell `(8, 8)` replaced by the
first candidate, the other 80 cells being those of the incoming board. -/
theorem CreateRecursive_last_cell (sh : Shuffler) (al : Allocator) (fuel : Nat) (w : World)
    (old_state output : Nat) (v : Int) (rest : List Int)
    (hold : old_state ∈ w.live) (hout : output ∈ w.live)
    (hcand : (GetAllowedValues sh w old_state 8 8).shuffled = v :: rest) :
    ∃ w2, CreateRecursive sh al (fuel + 1) w old_state output 8 8 =
        some (RecursionResult.kComplete, w2) ∧
      w2.clock = w.clock + 1 ∧ w2.live = w.live ∧
      w2.heap output 8 8 = v ∧
      ∀ r, r < 9 → ∀ c, c < 9 → ¬(r = 8 ∧ c = 8) →
        w2.heap output r c = w.heap old_state r c := by
  have hfresh := al.fresh w.live
  have hso : output ≠ al.pick w.live := fun h => hfresh (h ▸ hout)
  have hsold : old_state ≠ al.pick w.live := fun h => hfresh (h ▸ hold)
  rw [GetAllowedValues_shuffled] at hcand
  have hshuf : (GetAllowedValues sh ((w.alloc (al.pick w.live)).store (al.pick w.live)
      (Copy (w.heap old_state) (w.heap (al.pick w.live)))) old_state 8 8).shuffled
      = v :: rest := by
    rw [GetAllowedValues_shuffled]
    simp only [store_clock, alloc_clock, store_heap, alloc_heap, if_neg hsold, hcand]
  rw [CreateRecursive_succ, hshuf]
  rw [if_neg (by simp), tryCandidates_last _ _ _ _ _ _ _ _ (by decide)]
  refine ⟨_, rfl, ?_, ?_, ?_, ?_⟩
  · simp
  · simp
  · simp [Copy, setCell]
  · intro r hr c hc hne
    simp [Copy, setCell, hr, hc, hne, hso]

/-- Witness of C12: the frame at `(8, 8)` on the solved board with its last cell emptied,
whose only candidate is the digit of the solved board. -/
theorem CreateRecursive_last_cell_witness :
    (GetAllowedValues Shuffler.identity lastCellWorld 0 8 8).shuffled = [2] ∧
    ∃ w2, CreateRecursive Shuffler.identity Allocator.bump (0 + 1) lastCellWorld 0 1 8 8 =
        some (RecursionResult.kComplete, w2) ∧
      w2.clock = lastCellWorld.clock + 1 ∧ w2.live = lastCellWorld.live ∧
      w2.heap 1 8 8 = 2 ∧
      ∀ r, r < 9 → ∀ c, c < 9 → ¬(r = 8 ∧ c = 8) →
        w2.heap 1 r c = lastCellWorld.heap 0 r c :=
  ⟨by decide,
    CreateRecursive_last_cell Shuffler.identity Allocator.bump 0 lastCellWorld 0 1 2 []
      (by decide) (by decide) (by decide)⟩

/-! ## The recorded search -/

theorem tryCandidatesLog_nil
    (recL : World → List Event → Option (RecursionResult × World × List Event))
    (state output row column : Nat) (next_pos : Nat × Nat) (w : World) (log : List Event) :
    tryCandidatesLog recL state output row column next_pos [] w log =
      some (RecursionResult.kFailed, w.free state, log) := rfl

theorem tryCandidatesLog_last
    (recL : World → List Event → Option (RecursionResult × World × List Event))
    (state output row column : Nat) (next_pos : Nat × Nat) (v : Int) (rest : List Int)
    (w : World) (log : List Event) (hbr : IsAtBottomRight row column = true) :
    tryCandidatesLog recL state output row column next_pos (v :: rest) w log =
      some (RecursionResult.kComplete,
        ((w.store state (setCell (w.heap state) row column v)).store output
          (Copy ((w.store state (setCell (w.heap state) row column v)).heap state)
            ((w.store state (setCell (w.heap state) row column v)).heap output))).free state,
        log ++ [Event.attempt row column v
            ((w.store state (setCell (w.heap state) row column v)).heap state)] ++
          [Event.output ((w.store state (setCell (w.heap state) row column v)).heap state)]) := by
  simp only [tryCandidatesLog, hbr, if_true]

theorem tryCandidatesLog_none
    (recL : World → List Event → Option (RecursionResult × World × List Event))
    (state output row column : Nat) (next_pos : Nat × Nat) (v : Int) (rest : List Int)
    (w : World) (log : List Event) (hbr : ¬IsAtBottomRight row column = true)
    (h : recL (w.store state (setCell (w.heap state) row column v))
      (log ++ [Event.attempt row column v
          ((w.store state (setCell (w.heap state) row column v)).heap state)] ++
        [Event.call row column next_pos]) = none) :
    tryCandidatesLog recL state output row column next_pos (v :: rest) w log = none := by
  simp only [tryCandidatesLog, hbr, Bool.false_eq_true, if_false, h]

theorem tryCandidatesLog_complete
    (recL : World → List Event → Option (RecursionResult × World × List Event))
    (state output row column : Nat) (next_pos : Nat × Nat) (v : Int) (rest : List Int)
    (w : World) (log : List Event) (hbr : ¬IsAtBottomRight row column = true)
    (w2 : World) (log2 : List Event)
    (h : recL (w.store state (setCell (w.heap state) row column v))
      (log ++ [Event.attempt row column v
          ((w.store state (setCell (w.heap state) row column v)).heap state)] ++
        [Event.call row column next_pos]) = some (RecursionResult.kComplete, w2, log2)) :
    tryCandidatesLog recL state output row column next_pos (v :: rest) w log =
      some (RecursionResult.kComplete, w2.free state, log2) := by
  simp only [tryCandidatesLog, hbr, Bool.false_eq_true, if_false, h]

theorem tryCandidatesLog_failed
    (recL : World → List Event → Option (RecursionResult × World × List Event))
    (state output row column : Nat) (next_pos : Nat × Nat) (v : Int) (rest : List Int)
    (w : World) (log : List Event) (hbr : ¬IsAtBottomRight row column = true)
    (w2 : World) (log2 : List Event)
    (h : recL (w.store state (setCell (w.heap state) row column v))
      (log ++ [Event.attempt row column v
          ((w.store state (setCell (w.heap state) row column v)).heap state)] ++
        [Event.call row column next_pos]) = some (RecursionResult.kFailed, w2, log2)) :
    tryCandidatesLog recL state output row column next_pos (v :: rest) w log =
      tryCandidatesLog recL state output row column next_pos rest w2 log2 := by
  simp only [tryCandidatesLog, hbr, Bool.false_eq_true, if_false, h]

theorem CreateRecursiveLog_succ (sh : Shuffler) (al : Allocator) (fuel : Nat) (w : World)
    (log : List Event) (old_state output row column : Nat) :
    CreateRecursiveLog sh al (fuel + 1) w log old_state output row column =
      if (enterFrame sh al w old_state row column).shuffled.length = 0 then
        some (RecursionResult.kFailed,
          (enterFrame sh al w old_state row column).free (al.pick w.live),
          log ++ [Event.enter row column (Copy (w.heap old_state) (w.heap (al.pick w.live)))])
      else
        tryCandidatesLog
          (fun w2 log2 => CreateRecursiveLog sh al fuel w2 log2 (al.pick w.live) output
            (IterateNext row column).1 (IterateNext row column).2)
          (al.pick w.live) output row column (IterateNext row column)
          (enterFrame sh al w old_state row column).shuffled
          (enterFrame sh al w old_state row column)
          (log ++ [Event.enter row column (Copy (w.heap old_state) (w.heap (al.pick w.live)))]
            ++ [Event.iterate row column (IterateNext row column)]) := by
  simp only [CreateRecursiveLog, enterFrame, store_heap, alloc_heap, if_true]

theorem CreateRecursive_succ_enterFrame (sh : Shuffler) (al : Allocator) (fuel : Nat)
    (w : World) (old_state output row column : Nat) :
    CreateRecursive sh al (fuel + 1) w old_state output row column =
      if (enterFrame sh al w old_state row column).shuffled.length = 0 then
        some (RecursionResult.kFailed,
          (enterFrame sh al w old_state row column).free (al.pick w.live))
      else
        tryCandidates
          (fun w2 => CreateRecursive sh al fuel w2 (al.pick w.live) output
            (IterateNext row column).1 (IterateNext row column).2)
          (al.pick w.live) output row column
          (enterFrame sh al w old_state row column).shuffled
          (enterFrame sh al w old_state row column) :=
  CreateRecursive_succ sh al fuel w old_state output row column

theorem tryCandidatesLog_erase
    (recL : World → List Event → Option (RecursionResult × World × List Event))
    (recH : World → Option (RecursionResult × World))
    (hrec : ∀ w log, eraseLog (recL w log) = recH w)
    (state output row column : Nat) (next_pos : Nat × Nat) (cands : List Int) (w : World)
    (log : List Event) :
    eraseLog (tryCandidatesLog recL state output row column next_pos cands w log) =
      tryCandidates recH state output row column cands w := by
  induction cands generalizing w log with
  | nil => rfl
  | cons v rest ih =>
    by_cases hbr : IsAtBottomRight row column = true
    · rw [tryCandidatesLog_last _ _ _ _ _ _ _ _ _ _ hbr, tryCandidates_last _ _ _ _ _ _ _ _ hbr]
      rfl
    · have hstep := hrec (w.store state (setCell (w.heap state) row column v))
        (log ++ [Event.attempt row column v
            ((w.store state (setCell (w.heap state) row column v)).heap state)] ++
          [Event.call row column next_pos])
      cases hL : recL (w.store state (setCell (w.heap state) row column v))
        (log ++ [Event.attempt row column v
            ((w.store state (setCell (w.heap state) row column v)).heap state)] ++
          [Event.call row column next_pos]) with
      | none =>
        rw [hL] at hstep
        rw [tryCandidatesLog_none _ _ _ _ _ _ _ _ _ _ hbr hL,
          tryCandidates_none _ _ _ _ _ _ _ _ hbr hstep.symm]
        rfl
      | some val =>
        obtain ⟨res, w2, log2⟩ := val
        rw [hL] at hstep
        cases res with
        | kComplete =>
          rw [tryCandidatesLog_complete _ _ _ _ _ _ _ _ _ _ hbr _ _ hL,
            tryCandidates_complete _ _ _ _ _ _ _ _ hbr _ hstep.symm]
          rfl
        | kFailed =>
          rw [tryCandidatesLog_failed _ _ _ _ _ _ _ _ _ _ hbr _ _ hL,
            tryCandidates_failed _ _ _ _ _ _ _ _ hbr _ hstep.symm]
          exact ih w2 log2

theorem CreateRecursiveLog_erase (sh : Shuffler) (al : Allocator) (fuel : Nat) :
    ∀ (w : World) (log : List Event) (old_state output row column : Nat),
      eraseLog (CreateRecursiveLog sh al fuel w log old_state output row column) =
        CreateRecursive sh al fuel w old_state output row column := by
  induction fuel with
  | zero =>
    intro w log old_state output row column
    rfl
  | succ fuel ih =>
    intro w log old_state output row column
    rw [CreateRecursiveLog_succ, CreateRecursive_succ_enterFrame]
    split
    · rfl
    · exact tryCandidatesLog_erase _ _ (fun w2 log2 => ih w2 log2 _ _ _ _) _ _ _ _ _ _ _ _

theorem CreateRecursiveLog_of_eq_some (sh : Shuffler) (al : Allocator) (fuel : Nat)
    (w : World) (log : List Event) (old_state output row column : Nat)
    (res : RecursionResult) (w2 : World)
    (h : CreateRecursive sh al fuel w old_state output row column = some (res, w2)) :
    ∃ log2, CreateRecursiveLog sh al fuel w log old_state output row column =
      some (res, w2, log2) := by
  have herase := CreateRecursiveLog_erase sh al fuel w log old_state output row column
  rw [h] at herase
  cases hL : CreateRecursiveLog sh al fuel w log old_state output row column with
  | none =>
    rw [hL] at herase
    cases herase
  | some val =>
    obtain ⟨res3, w3, log3⟩ := val
    rw [hL] at herase
    simp only [eraseLog, Option.map_some', Option.some.injEq, Prod.mk.injEq] at herase
    obtain ⟨h1, h2⟩ := herase
    subst h1 h2
    exact ⟨log3, rfl⟩

theorem CreateRecursive_of_Log_eq_some (sh : Shuffler) (al : Allocator) (fuel : Nat)
    (w : World) (log : List Event) (old_state output row column : Nat)
    (res : RecursionResult) (w2 : World) (log2 : List Event)
    (h : CreateRecursiveLog sh al fuel w log old_state output row column =
      some (res, w2, log2)) :
    CreateRecursive sh al fuel w old_state output row column = some (res, w2) := by
  rw [← CreateRecursiveLog_erase sh al fuel w log old_state output row column, h]
  rfl

theorem enterFrame_live (sh : Shuffler) (al : Allocator) (w : World)
    (old_state row column : Nat) :
    (enterFrame sh al w old_state row column).live = al.pick w.live :: w.live := by
  simp [enterFrame]

theorem enterFrame_clock (sh : Shuffler) (al : Allocator) (w : World)
    (old_state row column : Nat) :
    (enterFrame sh al w old_state row column).clock = w.clock + 1 := by
  simp [enterFrame]

theorem enterFrame_heap (sh : Shuffler) (al : Allocator) (w : World)
    (old_state row column : Nat) (a : Nat) :
    (enterFrame sh al w old_state row column).heap a =
      if a = al.pick w.live then Copy (w.heap old_state) (w.heap (al.pick w.live))
      else w.heap a := by
  simp [enterFrame]

theorem enterFrame_shuffled (sh : Shuffler) (al : Allocator) (w : World)
    (old_state row column : Nat) (hold : old_state ∈ w.live) :
    (enterFrame sh al w old_state row column).shuffled =
      (GetAllowedValues sh w old_state row column).shuffled := by
  have hsold : old_state ≠ al.pick w.live := fun h => al.fresh w.live (h ▸ hold)
  unfold enterFrame
  rw [GetAllowedValues_shuffled, GetAllowedValues_shuffled]
  simp only [store_clock, alloc_clock, store_heap, alloc_heap, if_neg hsold]

theorem countOutput_append (log : List Event) (e : Event) :
    countOutput (log ++ [e]) = countOutput log + (if e.isOutput = true then 1 else 0) := by
  unfold countOutput
  rw [List.filter_append, List.length_append]
  cases h : e.isOutput <;> simp [List.filter, h]

theorem good_append (I : Board → Nat → Prop) (log : List Event) (e : Event)
    (hlog : ∀ x ∈ log, GoodEvent I x) (he : GoodEvent I e) :
    ∀ x ∈ log ++ [e], GoodEvent I x := by
  intro x hx
  rcases List.mem_append.1 hx with h | h
  · exact hlog x h
  · rw [List.mem_singleton.1 h]
    exact he

theorem tryCandidatesLog_good (I : Board → Nat → Prop)
    (hI1 : ∀ b b2 k, I b k → SameCells b2 b → I b2 k)
    (hI2 : ∀ b row column v, row < 9 → column < 9 → I b (9 * row + column) →
      v ∈ allowedSet b row column → I (setCell b row column v) (9 * row + column + 1))
    (recL : World → List Event → Option (RecursionResult × World × List Event))
    (state output row column : Nat) (b : Board) (hr : row < 9) (hc : column < 9)
    (hIb : I b (9 * row + column))
    (hrec : ¬IsAtBottomRight row column = true → ∀ w log res w2 log2,
      state ∈ w.live → output ∈ w.live → I (w.heap state) (9 * row + column + 1) →
      (∀ e ∈ log, GoodEvent I e) → recL w log = some (res, w2, log2) →
      w2.live = w.live ∧ w2.heap state = w.heap state ∧ (∀ e ∈ log2, GoodEvent I e) ∧
        countOutput log2 =
          countOutput log + (if res = RecursionResult.kComplete then 1 else 0))
    (cands : List Int) (hcands : ∀ v ∈ cands, v ∈ allowedSet b row column)
    (w : World) (log : List Event) (hs : state ∈ w.live) (ho : output ∈ w.live)
    (hb : ∀ r, r < 9 → ∀ c, c < 9 → ¬(r = row ∧ c = column) → w.heap state r c = b r c)
    (hlog : ∀ e ∈ log, GoodEvent I e)
    (res : RecursionResult) (w2 : World) (log2 : List Event)
    (h : tryCandidatesLog recL state output row column (IterateNext row column) cands w log =
      some (res, w2, log2)) :
    (∀ e ∈ log2, GoodEvent I e) ∧
      countOutput log2 = countOutput log + (if res = RecursionResult.kComplete then 1 else 0) := by
  induction cands generalizing w log with
  | nil =>
    rw [tryCandidatesLog_nil] at h
    cases h
    exact ⟨hlog, by simp⟩
  | cons v rest ih =>
    have hv := hcands v (List.mem_cons_self _ _)
    have hrest : ∀ u ∈ rest, u ∈ allowedSet b row column :=
      fun u hu => hcands u (List.mem_cons_of_mem _ hu)
    have hst : (w.store state (setCell (w.heap state) row column v)).heap state =
        setCell (w.heap state) row column v := by simp
    have hsame : SameCells (setCell (w.heap state) row column v) (setCell b row column v) :=
      SameCells_setCell _ _ _ _ _ hb
    have hI : I (setCell (w.heap state) row column v) (9 * row + column + 1) :=
      hI1 _ _ _ (hI2 b row column v hr hc hIb hv) hsame
    have hattempt : GoodEvent I
        (Event.attempt row column v (setCell (w.heap state) row column v)) :=
      ⟨hr, hc, by simp [setCell], hI⟩
    have hlog1 := good_append I log _ hlog hattempt
    by_cases hbr : IsAtBottomRight row column = true
    · rw [tryCandidatesLog_last _ _ _ _ _ _ _ _ _ _ hbr, hst] at h
      cases h
      refine ⟨good_append I _ _ hlog1 trivial, ?_⟩
      rw [countOutput_append, countOutput_append]
      simp [Event.isOutput]
    · have hnext := IterateNext_in_range row column hr hc hbr
      have hcall : GoodEvent I (Event.call row column (IterateNext row column)) :=
        ⟨hr, hc, hnext.1, hnext.2.1, hnext.2.2⟩
      have hlog2 := good_append I _ _ hlog1 hcall
      have hcount : countOutput (log ++
          [Event.attempt row column v (setCell (w.heap state) row column v)] ++
          [Event.call row column (IterateNext row column)]) = countOutput log := by
        rw [countOutput_append, countOutput_append]
        simp [Event.isOutput]
      cases hL : recL (w.store state (setCell (w.heap state) row column v))
        (log ++ [Event.attempt row column v
            ((w.store state (setCell (w.heap state) row column v)).heap state)] ++
          [Event.call row column (IterateNext row column)]) with
      | none =>
        rw [tryCandidatesLog_none _ _ _ _ _ _ _ _ _ _ hbr hL] at h
        cases h
      | some val =>
        obtain ⟨res3, w3, log3⟩ := val
        have hchild := hrec hbr _ _ _ _ _ (by simpa using hs) (by simpa using ho)
          (by rw [hst]; exact hI) (by rw [hst]; exact hlog2) hL
        obtain ⟨hlive3, hheap3, hgood3, hcount3⟩ := hchild
        rw [hst, hcount] at hcount3
        cases res3 with
        | kComplete =>
          rw [tryCandidatesLog_complete _ _ _ _ _ _ _ _ _ _ hbr _ _ hL] at h
          cases h
          exact ⟨hgood3, hcount3⟩
        | kFailed =>
          rw [tryCandidatesLog_failed _ _ _ _ _ _ _ _ _ _ hbr _ _ hL] at h
          have hih := ih hrest w3 log3 (by rw [hlive3]; simpa using hs)
            (by rw [hlive3]; simpa using ho)
            (by
              intro r hr2 c hc2 hne
              rw [hheap3, hst]
              unfold setCell
              rw [if_neg hne]
              exact hb r hr2 c hc2 hne)
            hgood3 h
          refine ⟨hih.1, ?_⟩
          rw [hih.2, hcount3]
          simp

theorem CreateRecursiveLog_good (I : Board → Nat → Prop)
    (hI1 : ∀ b b2 k, I b k → SameCells b2 b → I b2 k)
    (hI2 : ∀ b row column v, row < 9 → column < 9 → I b (9 * row + column) →
      v ∈ allowedSet b row column → I (setCell b row column v) (9 * row + column + 1))
    (sh : Shuffler) (al : Allocator) (fuel : Nat) :
    ∀ (w : World) (log : List Event) (old_state output row column : Nat)
      (res : RecursionResult) (w2 : World) (log2 : List Event),
      row < 9 → column < 9 → old_state ∈ w.live → output ∈ w.live →
      I (w.heap old_state) (9 * row + column) → (∀ e ∈ log, GoodEvent I e) →
      CreateRecursiveLog sh al fuel w log old_state output row column = some (res, w2, log2) →
      (∀ e ∈ log2, GoodEvent I e) ∧
        countOutput log2 =
          countOutput log + (if res = RecursionResult.kComplete then 1 else 0) := by
  induction fuel with
  | zero =>
    intro w log old_state output row column res w2 log2 _ _ _ _ _ _ h
    cases h
  | succ fuel ih =>
    intro w log old_state output row column res w2 log2 hr hc hold hout hI hlog h
    have hfresh := al.fresh w.live
    have hso : al.pick w.live ≠ output := fun h => hfresh (h ▸ hout)
    rw [CreateRecursiveLog_succ, enterFrame_shuffled sh al w old_state row column hold,
      GetAllowedValues_shuffled] at h
    have henter : GoodEvent I
        (Event.enter row column (Copy (w.heap old_state) (w.heap (al.pick w.live)))) :=
      ⟨hr, hc, hI1 _ _ _ hI (SameCells_Copy _ _)⟩
    have hlog1 := good_append I log _ hlog henter
    by_cases hlen : (sh.run w.clock (allowedSet (w.heap old_state) row column)).length = 0
    · rw [if_pos hlen] at h
      cases h
      refine ⟨hlog1, ?_⟩
      rw [countOutput_append]
      simp [Event.isOutput]
    · rw [if_neg hlen] at h
      have hiter : GoodEvent I (Event.iterate row column (IterateNext row column)) :=
        ⟨hr, hc, rfl⟩
      have hlog2 := good_append I _ _ hlog1 hiter
      have hloop := tryCandidatesLog_good I hI1 hI2 _ (al.pick w.live) output row column
        (w.heap old_state) hr hc hI
        (by
          intro hbr w3 log3 res3 w4 log4 hs3 ho3 hI3 hlog3 hrun
          have hnext := IterateNext_in_range row column hr hc hbr
          have hplain := CreateRecursive_of_Log_eq_some sh al fuel _ _ _ _ _ _ _ _ _ hrun
          obtain ⟨_, _, _, hlive4, _, hkeep4, _⟩ := CreateRecursive_eq_some sh al fuel w3
            (al.pick w.live) output _ _ hnext.1 hnext.2.1 hs3 ho3 res3 w4 hplain
          have hgood := ih w3 log3 (al.pick w.live) output _ _ res3 w4 log4 hnext.1 hnext.2.1
            hs3 ho3 (by rw [hnext.2.2]; exact hI3) hlog3 hrun
          exact ⟨hlive4, hkeep4 _ hs3 hso, hgood.1, hgood.2⟩)
        _ (fun v hv => ((sh.perm w.clock _).mem_iff).1 hv)
        (enterFrame sh al w old_state row column) _
        (by rw [enterFrame_live]; simp)
        (by rw [enterFrame_live]; simp [hout])
        (by
          intro r hr2 c hc2 _
          rw [enterFrame_heap, if_pos rfl]
          simp [Copy, hr2, hc2])
        hlog2 res w2 log2 h
      refine ⟨hloop.1, ?_⟩
      rw [hloop.2, countOutput_append, countOutput_append]
      simp [Event.isOutput]

theorem tryCandidatesLog_mono
    (recL : World → List Event → Option (RecursionResult × World × List Event))
    (hrec : ∀ w log res w2 log2, recL w log = some (res, w2, log2) → ∀ e ∈ log, e ∈ log2)
    (state output row column : Nat) (next_pos : Nat × Nat) (cands : List Int) (w : World)
    (log : List Event) (res : RecursionResult) (w2 : World) (log2 : List Event)
    (h : tryCandidatesLog recL state output row column next_pos cands w log =
      some (res, w2, log2)) :
    ∀ e ∈ log, e ∈ log2 := by
  induction cands generalizing w log with
  | nil =>
    rw [tryCandidatesLog_nil] at h
    cases h
    exact fun e he => he
  | cons v rest ih =>
    by_cases hbr : IsAtBottomRight row column = true
    · rw [tryCandidatesLog_last _ _ _ _ _ _ _ _ _ _ hbr] at h
      cases h
      intro e he
      simp [he]
    · cases hL : recL (w.store state (setCell (w.heap state) row column v))
        (log ++ [Event.attempt row column v
            ((w.store state (setCell (w.heap state) row column v)).heap state)] ++
          [Event.call row column next_pos]) with
      | none =>
        rw [tryCandidatesLog_none _ _ _ _ _ _ _ _ _ _ hbr hL] at h
        cases h
      | some val =>
        obtain ⟨res3, w3, log3⟩ := val
        have hsub : ∀ e ∈ log, e ∈ log3 := by
          intro e he
          apply hrec _ _ _ _ _ hL
          simp [he]
        cases res3 with
        | kComplete =>
          rw [tryCandidatesLog_complete _ _ _ _ _ _ _ _ _ _ hbr _ _ hL] at h
          cases h
          exact hsub
        | kFailed =>
          rw [tryCandidatesLog_failed _ _ _ _ _ _ _ _ _ _ hbr _ _ hL] at h
          exact fun e he => ih w3 log3 h e (hsub e he)

theorem CreateRecursiveLog_mono (sh : Shuffler) (al : Allocator) (fuel : Nat) :
    ∀ (w : World) (log : List Event) (old_state output row column : Nat)
      (res : RecursionResult) (w2 : World) (log2 : List Event),
      CreateRecursiveLog sh al fuel w log old_state output row column = some (res, w2, log2) →
      ∀ e ∈ log, e ∈ log2 := by
  induction fuel with
  | zero =>
    intro w log old_state output row column res w2 log2 h
    cases h
  | succ fuel ih =>
    intro w log old_state output row column res w2 log2 h
    rw [CreateRecursiveLog_succ] at h
    split at h
    · cases h
      intro e he
      simp [he]
    · intro e he
      apply tryCandidatesLog_mono _ (fun w3 log3 res3 w4 log4 hrun => ih _ _ _ _ _ _ _ _ _ hrun)
        _ _ _ _ _ _ _ _ _ _ _ h
      simp [he]

theorem CreateRecursiveLog_enter_mem (sh : Shuffler) (al : Allocator) (fuel : Nat)
    (w : World) (old_state output row column : Nat)
    (res : RecursionResult) (w2 : World) (log2 : List Event)
    (h : CreateRecursiveLog sh al fuel w [] old_state output row column =
      some (res, w2, log2)) :
    Event.enter row column (Copy (w.heap old_state) (w.heap (al.pick w.live))) ∈ log2 := by
  cases fuel with
  | zero => cases h
  | succ fuel =>
    rw [CreateRecursiveLog_succ] at h
    split at h
    · cases h
      simp
    · apply tryCandidatesLog_mono _
        (fun w3 log3 res3 w4 log4 hrun => CreateRecursiveLog_mono sh al fuel _ _ _ _ _ _ _ _ _ hrun)
        _ _ _ _ _ _ _ _ _ _ _ h
      simp

theorem CreateRecursiveLog_returns (sh : Shuffler) (al : Allocator) (fuel : Nat) (w : World)
    (log : List Event) (old_state output row column : Nat) (hr : row < 9) (hc : column < 9)
    (hold : old_state ∈ w.live) (hout : output ∈ w.live)
    (hfuel : 81 ≤ fuel + (9 * row + column)) :
    ∃ res w2 log2,
      CreateRecursiveLog sh al fuel w log old_state output row column = some (res, w2, log2) ∧
      CreateRecursive sh al fuel w old_state output row column = some (res, w2) := by
  obtain ⟨res, w2, hrun⟩ := CreateRecursive_returns sh al fuel w old_state output row column
    hr hc hold hout hfuel
  obtain ⟨log2, hlog⟩ := CreateRecursiveLog_of_eq_some sh al fuel w log old_state output
    row column res w2 hrun
  exact ⟨res, w2, log2, hlog, hrun⟩

theorem FilledBefore_of_valid_zero (b : Board) (k : Nat) (h : ValidBefore b k ∧ ZeroFrom b k) :
    FilledBefore b k := by
  refine ⟨fun r hr c hc => ?_, h.1⟩
  constructor
  · intro hne
    by_contra hlt
    exact hne (h.2 r hr c hc (by omega))
  · intro hlt h0
    have := (h.1 r hr c hc hlt).1
    omega

theorem valid_zero_congr (b b2 : Board) (k : Nat) (h : ValidBefore b k ∧ ZeroFrom b k)
    (hsame : SameCells b2 b) : ValidBefore b2 k ∧ ZeroFrom b2 k := by
  refine ⟨ValidBefore_restrict b b2 k k h.1 (le_refl k) (fun r hr c hc _ => hsame r hr c hc), ?_⟩
  intro r hr c hc hle
  rw [hsame r hr c hc]
  exact h.2 r hr c hc hle

theorem valid_zero_step (b : Board) (row column : Nat) (v : Int) (hr : row < 9)
    (hc : column < 9) (h : ValidBefore b (9 * row + column) ∧ ZeroFrom b (9 * row + column))
    (hv : v ∈ allowedSet b row column) :
    ValidBefore (setCell b row column v) (9 * row + column + 1) ∧
      ZeroFrom (setCell b row column v) (9 * row + column + 1) := by
  constructor
  · intro r hr2 c hc2 hlt
    by_cases heq : 9 * r + c = 9 * row + column
    · have e1 : r = row := by omega
      have e2 : c = column := by omega
      subst e1 e2
      have hval : setCell b r c v r c = v := by simp [setCell]
      rw [hval]
      refine ⟨((mem_allowedSet b r c v).1 hv).1, fun r2 hr3 c2 hc3 hlt2 hp => ?_⟩
      have hother : setCell b r c v r2 c2 = b r2 c2 := by
        unfold setCell
        rw [if_neg (by omega)]
      rw [hother]
      exact allowed_ne_peer b r c v hv r2 c2 hr3 hc3 hp
    · have hsame : ∀ r3 c3, 9 * r3 + c3 < 9 * row + column →
          setCell b row column v r3 c3 = b r3 c3 := by
        intro r3 c3 h3
        unfold setCell
        rw [if_neg (by omega)]
      rw [hsame r c (by omega)]
      refine ⟨(h.1 r hr2 c hc2 (by omega)).1, fun r2 hr3 c2 hc3 hlt2 hp => ?_⟩
      rw [hsame r2 c2 (by omega)]
      exact (h.1 r hr2 c hc2 (by omega)).2 r2 hr3 c2 hc3 hlt2 hp
  · intro r hr2 c hc2 hle
    unfold setCell
    rw [if_neg (by omega)]
    exact h.2 r hr2 c hc2 (by omega)

/-! ## Invariant of the generation -/

/-- C11: in the run of `CreateRecursive` from the all-zero board at `(0, 0)`, every frame
entered is at an in-range position and holds a board in which exactly the cells before
that position are non-zero, these hold digits 1..9 and none repeats a digit of its row,
column or box; and after each assignment `state[row][column] = val` the working copy has
the same property up to and including the assigned cell.  The run returns, and the
frame of the root call is among those entered. -/
theorem CreateRecursive_frames_invariant (sh : Shuffler) (al : Allocator) (fuel : Nat)
    (w : World) (board : Nat) (hfuel : 81 ≤ fuel) (hlive : board ∈ w.live)
    (hzero : ∀ r, r < 9 → ∀ c, c < 9 → w.heap board r c = 0) :
    ∃ res w2 log,
      CreateRecursiveLog sh al fuel w [] board board 0 0 = some (res, w2, log) ∧
      CreateRecursive sh al fuel w board board 0 0 = some (res, w2) ∧
      (∃ state, Event.enter 0 0 state ∈ log) ∧
      (∀ row column state, Event.enter row column state ∈ log →
        row < 9 ∧ column < 9 ∧ FilledBefore state (9 * row + column)) ∧
      (∀ row column val state, Event.attempt row column val state ∈ log →
        state row column = val ∧ FilledBefore state (9 * row + column + 1)) := by
  obtain ⟨res, w2, log, hlog, hrun⟩ := CreateRecursiveLog_returns sh al fuel w [] board board
    0 0 (by omega) (by omega) hlive hlive (by omega)
  have hgood := (CreateRecursiveLog_good (fun b k => ValidBefore b k ∧ ZeroFrom b k)
    valid_zero_congr (fun b row column v hr hc h hv => valid_zero_step b row column v hr hc h hv)
    sh al fuel w [] board board 0 0 res w2 log (by omega) (by omega) hlive hlive
    ⟨fun r _ c _ hlt => absurd hlt (by omega), fun r hr c hc _ => hzero r hr c hc⟩
    (fun e he => absurd he (List.not_mem_nil e)) hlog).1
  refine ⟨res, w2, log, hlog, hrun, ⟨_, CreateRecursiveLog_enter_mem sh al fuel w board board
    0 0 res w2 log hlog⟩, ?_, ?_⟩
  · intro row column state hmem
    obtain ⟨h1, h2, h3⟩ := hgood _ hmem
    exact ⟨h1, h2, FilledBefore_of_valid_zero _ _ h3⟩
  · intro row column val state hmem
    obtain ⟨_, _, h3, h4⟩ := hgood _ hmem
    exact ⟨h3, FilledBefore_of_valid_zero _ _ h4⟩

/-- Witness of C11: the run from the world whose only buffer is an empty board. -/
theorem CreateRecursive_frames_invariant_witness :
    ∃ res w2 log,
      CreateRecursiveLog Shuffler.reversing Allocator.bump 81 emptyWorld [] 0 0 0 0 =
        some (res, w2, log) ∧
      CreateRecursive Shuffler.reversing Allocator.bump 81 emptyWorld 0 0 0 0 =
        some (res, w2) ∧
      (∃ state, Event.enter 0 0 state ∈ log) ∧
      (∀ row column state, Event.enter row column state ∈ log →
        row < 9 ∧ column < 9 ∧ FilledBefore state (9 * row + column)) ∧
      (∀ row column val state, Event.attempt row column val state ∈ log →
        state row column = val ∧ FilledBefore state (9 * row + column + 1)) :=
  CreateRecursive_frames_invariant Shuffler.reversing Allocator.bump 81 emptyWorld 0
    (le_refl 81) (List.mem_singleton.2 rfl) (fun _ _ _ _ => rfl)

/-! ## Termination and depth -/

/-- C14: from any in-range position and on any board, `CreateRecursive` returns when
given fuel for `81 - (9 * row + column)` nested frames, which is at most 81, and hence
with any larger fuel; the fuel is what bounds the length of a chain of nested frames.
In the run, every recursive call is made at the position whose row-major index is one
more than its caller's. -/
theorem CreateRecursive_depth_bound (sh : Shuffler) (al : Allocator) (w : World)
    (old_state output row column : Nat) (hr : row < 9) (hc : column < 9)
    (hold : old_state ∈ w.live) (hout : output ∈ w.live) :
    (∃ res w2 log,
      CreateRecursiveLog sh al (81 - (9 * row + column)) w [] old_state output row column =
        some (res, w2, log) ∧
      CreateRecursive sh al (81 - (9 * row + column)) w old_state output row column =
        some (res, w2) ∧
      ∀ r c next_pos, Event.call r c next_pos ∈ log →
        9 * next_pos.1 + next_pos.2 = 9 * r + c + 1) ∧
    81 - (9 * row + column) ≤ 81 ∧
    (∀ fuel, 81 - (9 * row + column) ≤ fuel →
      ∃ res w2, CreateRecursive sh al fuel w old_state output row column = some (res, w2)) := by
  refine ⟨?_, by omega, fun fuel hfuel => ?_⟩
  · obtain ⟨res, w2, log, hlog, hrun⟩ := CreateRecursiveLog_returns sh al
      (81 - (9 * row + column)) w [] old_state output row column hr hc hold hout (by omega)
    have hgood := (CreateRecursiveLog_good (fun _ _ => True) (fun _ _ _ h _ => h)
      (fun _ _ _ _ _ _ h _ => h) sh al _ w [] old_state output row column res w2 log hr hc
      hold hout trivial (fun e he => absurd he (List.not_mem_nil e)) hlog).1
    refine ⟨res, w2, log, hlog, hrun, fun r c next_pos hmem => ?_⟩
    exact (hgood _ hmem).2.2.2.2
  · exact CreateRecursive_returns sh al fuel w old_state output row column hr hc hold hout
      (by omega)

/-- Witness of C14: the search of the whole board from the world whose only buffer is an
empty board. -/
theorem CreateRecursive_depth_bound_witness :
    (∃ res w2 log,
      CreateRecursiveLog Shuffler.identity Allocator.bump (81 - (9 * 0 + 0)) emptyWorld []
        0 0 0 0 = some (res, w2, log) ∧
      CreateRecursive Shuffler.identity Allocator.bump (81 - (9 * 0 + 0)) emptyWorld
        0 0 0 0 = some (res, w2) ∧
      ∀ r c next_pos, Event.call r c next_pos ∈ log →
        9 * next_pos.1 + next_pos.2 = 9 * r + c + 1) ∧
    81 - (9 * 0 + 0) ≤ 81 ∧
    (∀ fuel, 81 - (9 * 0 + 0) ≤ fuel →
      ∃ res w2, CreateRecursive Shuffler.identity Allocator.bump fuel emptyWorld
        0 0 0 0 = some (res, w2)) :=
  CreateRecursive_depth_bound Shuffler.identity Allocator.bump emptyWorld 0 0 0 0
    (by decide) (by decide) (by decide) (by decide)

/-! ## Frames that apply `IterateNext` -/

theorem FramesIterate_append (log : List Event) (e : Event) (h : FramesIterate log)
    (he : ∀ r c state, e ≠ Event.enter r c state) : FramesIterate (log ++ [e]) := by
  intro r c state hmem hcand
  rcases List.mem_append.1 hmem with h1 | h1
  · exact List.mem_append_left _ (h r c state h1 hcand)
  · exact absurd (List.mem_singleton.1 h1).symm (he r c state)

theorem tryCandidatesLog_iterates
    (recL : World → List Event → Option (RecursionResult × World × List Event))
    (state output row column : Nat) (hr : row < 9) (hc : column < 9)
    (hrec : ¬IsAtBottomRight row column = true → ∀ w log res w2 log2,
      FramesIterate log → recL w log = some (res, w2, log2) →
      FramesIterate log2 ∧ (∀ e ∈ log, e ∈ log2) ∧
        (res = RecursionResult.kComplete → Event.iterate 8 8 (9, 0) ∈ log2))
    (cands : List Int) (w : World) (log : List Event) (hP : FramesIterate log)
    (hit : Event.iterate row column (IterateNext row column) ∈ log)
    (res : RecursionResult) (w2 : World) (log2 : List Event)
    (h : tryCandidatesLog recL state output row column (IterateNext row column) cands w log =
      some (res, w2, log2)) :
    FramesIterate log2 ∧
      (res = RecursionResult.kComplete → Event.iterate 8 8 (9, 0) ∈ log2) := by
  induction cands generalizing w log with
  | nil =>
    rw [tryCandidatesLog_nil] at h
    cases h
    exact ⟨hP, fun h => by cases h⟩
  | cons v rest ih =>
    have hP1 := FramesIterate_append log
      (Event.attempt row column v
        ((w.store state (setCell (w.heap state) row column v)).heap state)) hP
      (fun _ _ _ h => by cases h)
    by_cases hbr : IsAtBottomRight row column = true
    · rw [tryCandidatesLog_last _ _ _ _ _ _ _ _ _ _ hbr] at h
      cases h
      refine ⟨FramesIterate_append _ _ hP1 (fun _ _ _ h => by cases h), fun _ => ?_⟩
      have h80 := (IsAtBottomRight_iff row column hr hc).1 hbr
      have e1 : row = 8 := by omega
      have e2 : column = 8 := by omega
      subst e1 e2
      exact List.mem_append_left _ (List.mem_append_left _ hit)
    · have hP2 := FramesIterate_append _ (Event.call row column (IterateNext row column)) hP1
        (fun _ _ _ h => by cases h)
      cases hL : recL (w.store state (setCell (w.heap state) row column v))
        (log ++ [Event.attempt row column v
            ((w.store state (setCell (w.heap state) row column v)).heap state)] ++
          [Event.call row column (IterateNext row column)]) with
      | none =>
        rw [tryCandidatesLog_none _ _ _ _ _ _ _ _ _ _ hbr hL] at h
        cases h
      | some val =>
        obtain ⟨res3, w3, log3⟩ := val
        obtain ⟨hP3, hsub3, hlast3⟩ := hrec hbr _ _ _ _ _ hP2 hL
        cases res3 with
        | kComplete =>
          rw [tryCandidatesLog_complete _ _ _ _ _ _ _ _ _ _ hbr _ _ hL] at h
          cases h
          exact ⟨hP3, fun _ => hlast3 rfl⟩
        | kFailed =>
          rw [tryCandidatesLog_failed _ _ _ _ _ _ _ _ _ _ hbr _ _ hL] at h
          exact ih w3 log3 hP3
            (hsub3 _ (List.mem_append_left _ (List.mem_append_left _ hit))) h

theorem enterFrame_candidates (sh : Shuffler) (al : Allocator) (w : World)
    (old_state row column : Nat) (hr : row < 9) (hc : column < 9) :
    (enterFrame sh al w old_state row column).shuffled.Perm
      (allowedSet (Copy (w.heap old_state) (w.heap (al.pick w.live))) row column) := by
  unfold enterFrame
  rw [GetAllowedValues_shuffled]
  have hsame : SameCells
      (((w.alloc (al.pick w.live)).store (al.pick w.live)
        (Copy (w.heap old_state) (w.heap (al.pick w.live)))).heap old_state)
      (Copy (w.heap old_state) (w.heap (al.pick w.live))) := by
    intro r hr2 c hc2
    simp only [store_heap, alloc_heap]
    split
    · rfl
    · simp [Copy, hr2, hc2]
  rw [allowedSet_congr _ _ row column hr hc hsame]
  exact sh.perm _ _

theorem CreateRecursiveLog_iterates (sh : Shuffler) (al : Allocator) (fuel : Nat) :
    ∀ (w : World) (log : List Event) (old_state output row column : Nat)
      (res : RecursionResult) (w2 : World) (log2 : List Event),
      row < 9 → column < 9 → FramesIterate log →
      CreateRecursiveLog sh al fuel w log old_state output row column = some (res, w2, log2) →
      FramesIterate log2 ∧
        (res = RecursionResult.kComplete → Event.iterate 8 8 (9, 0) ∈ log2) := by
  induction fuel with
  | zero =>
    intro w log old_state output row column res w2 log2 _ _ _ h
    cases h
  | succ fuel ih =>
    intro w log old_state output row column res w2 log2 hr hc hP h
    have hperm := enterFrame_candidates sh al w old_state row column hr hc
    rw [CreateRecursiveLog_succ] at h
    by_cases hlen : (enterFrame sh al w old_state row column).shuffled.length = 0
    · rw [if_pos hlen] at h
      cases h
      refine ⟨?_, fun h => by cases h⟩
      intro r c state hmem hcand
      rcases List.mem_append.1 hmem with h1 | h1
      · exact List.mem_append_left _ (hP r c state h1 hcand)
      · have heq := List.mem_singleton.1 h1
        cases heq
        rw [List.length_eq_zero] at hlen
        rw [hlen] at hperm
        exact absurd hperm.symm.eq_nil hcand
    · rw [if_neg hlen] at h
      have hP2 : FramesIterate
          (log ++ [Event.enter row column (Copy (w.heap old_state) (w.heap (al.pick w.live)))]
            ++ [Event.iterate row column (IterateNext row column)]) := by
        intro r c state hmem hcand
        rcases List.mem_append.1 hmem with h1 | h1
        · rcases List.mem_append.1 h1 with h2 | h2
          · exact List.mem_append_left _ (List.mem_append_left _ (hP r c state h2 hcand))
          · have heq := List.mem_singleton.1 h2
            cases heq
            exact List.mem_append_right _ (List.mem_singleton.2 rfl)
        · have heq := List.mem_singleton.1 h1
          cases heq
      refine tryCandidatesLog_iterates _ (al.pick w.live) output row column hr hc ?_ _ _ _ hP2
        (List.mem_append_right _ (List.mem_singleton.2 rfl)) res w2 log2 h
      intro hbr w3 log3 res3 w4 log4 hP3 hrun
      have hnext := IterateNext_in_range row column hr hc hbr
      have hchild := ih w3 log3 (al.pick w.live) output _ _ res3 w4 log4 hnext.1 hnext.2.1
        hP3 hrun
      exact ⟨hchild.1, CreateRecursiveLog_mono sh al fuel _ _ _ _ _ _ _ _ _ hrun, hchild.2⟩

theorem FramesIterate_nil : FramesIterate [] :=
  fun _ _ _ h _ => absurd h (List.not_mem_nil _)

/-! ## Index safety -/

/-- Counterexample to C17 as stated: the frame at `(8, 8)` on the solved board with its
last cell emptied computes `IterateNext 8 8`, which is `(9, 0)`, before its candidate
loop. -/
theorem IterateNext_applied_at_last_cell :
    ∃ res w2 log,
      CreateRecursiveLog Shuffler.identity Allocator.bump 1 lastCellWorld [] 0 1 8 8 =
        some (res, w2, log) ∧
      Event.iterate 8 8 (9, 0) ∈ log ∧ IterateNext 8 8 = (9, 0) :=
  ⟨RecursionResult.kComplete, _,
    [Event.enter 8 8 _, Event.iterate 8 8 (9, 0), Event.attempt 8 8 2 _, Event.output _],
    rfl, List.Mem.tail _ (List.Mem.head _), rfl⟩

/-- C17, amended: in a run of `CreateRecursive` started at an in-range position, every
frame entered, every assignment `state[row][column] = val` and every recursive call is
at a position with both coordinates in 0..8, and so is every position passed to a
recursive call; the box indices `row - row % 3 + i`, `column - column % 3 + j` for `i, j`
in 0..2 are in 0..8.  `IterateNext` is applied to the position of every frame entered
whose board leaves a candidate there, the frame at `(8, 8)` included: a run that returns
`kComplete` applies it to `(8, 8)`, where it yields `(9, 0)`; but no recursive call is
made from `(8, 8)`, so that position is never passed on. -/
theorem CreateRecursive_indices_in_range (sh : Shuffler) (al : Allocator) (fuel : Nat)
    (w : World) (old_state output row column : Nat) (res : RecursionResult) (w2 : World)
    (log : List Event) (hr : row < 9) (hc : column < 9)
    (hold : old_state ∈ w.live) (hout : output ∈ w.live)
    (hrun : CreateRecursiveLog sh al fuel w [] old_state output row column =
      some (res, w2, log)) :
    (∀ r c state, Event.enter r c state ∈ log → r < 9 ∧ c < 9) ∧
    (∀ r c val state, Event.attempt r c val state ∈ log → r < 9 ∧ c < 9) ∧
    (∀ r c next_pos, Event.iterate r c next_pos ∈ log →
      r < 9 ∧ c < 9 ∧ next_pos = IterateNext r c) ∧
    (∀ r c next_pos, Event.call r c next_pos ∈ log →
      r < 9 ∧ c < 9 ∧ ¬(r = 8 ∧ c = 8) ∧ next_pos.1 < 9 ∧ next_pos.2 < 9) ∧
    (∀ r c i j, r < 9 → c < 9 → i < 3 → j < 3 →
      r - r % 3 + i < 9 ∧ c - c % 3 + j < 9) ∧
    (∀ r c state, Event.enter r c state ∈ log → allowedSet state r c ≠ [] →
      Event.iterate r c (IterateNext r c) ∈ log) ∧
    (res = RecursionResult.kComplete → Event.iterate 8 8 (9, 0) ∈ log) := by
  have hgood := (CreateRecursiveLog_good (fun _ _ => True) (fun _ _ _ h _ => h)
    (fun _ _ _ _ _ _ h _ => h) sh al fuel w [] old_state output row column res w2 log hr hc
    hold hout trivial (fun e he => absurd he (List.not_mem_nil e)) hrun).1
  have hiter := CreateRecursiveLog_iterates sh al fuel w [] old_state output row column res
    w2 log hr hc FramesIterate_nil hrun
  refine ⟨?_, ?_, ?_, ?_, ?_, hiter.1, hiter.2⟩
  · intro r c state hmem
    obtain ⟨h1, h2, _⟩ := hgood _ hmem
    exact ⟨h1, h2⟩
  · intro r c val state hmem
    obtain ⟨h1, h2, _⟩ := hgood _ hmem
    exact ⟨h1, h2⟩
  · intro r c next_pos hmem
    exact hgood _ hmem
  · intro r c next_pos hmem
    obtain ⟨h1, h2, h3, h4, h5⟩ := hgood _ hmem
    exact ⟨h1, h2, by omega, h3, h4⟩
  · intro r c i j h1 h2 h3 h4
    omega

/-- Witness of C17, amended: the run of the frame at `(8, 8)`. -/
theorem CreateRecursive_indices_in_range_witness :
    ∃ res w2 log,
      CreateRecursiveLog Shuffler.identity Allocator.bump 1 lastCellWorld [] 0 1 8 8 =
        some (res, w2, log) ∧
      (∀ r c state, Event.enter r c state ∈ log → r < 9 ∧ c < 9) ∧
      (∀ r c val state, Event.attempt r c val state ∈ log → r < 9 ∧ c < 9) ∧
      (∀ r c next_pos, Event.iterate r c next_pos ∈ log →
        r < 9 ∧ c < 9 ∧ next_pos = IterateNext r c) ∧
      (∀ r c next_pos, Event.call r c next_pos ∈ log →
        r < 9 ∧ c < 9 ∧ ¬(r = 8 ∧ c = 8) ∧ next_pos.1 < 9 ∧ next_pos.2 < 9) ∧
      (∀ r c i j, r < 9 → c < 9 → i < 3 → j < 3 →
        r - r % 3 + i < 9 ∧ c - c % 3 + j < 9) ∧
      (∀ r c state, Event.enter r c state ∈ log → allowedSet state r c ≠ [] →
        Event.iterate r c (IterateNext r c) ∈ log) ∧
      (res = RecursionResult.kComplete → Event.iterate 8 8 (9, 0) ∈ log) :=
  ⟨_, _, _, rfl,
    CreateRecursive_indices_in_range Shuffler.identity Allocator.bump 1 lastCellWorld 0 1 8 8
      _ _ _ (by decide) (by decide) (by decide) (by decide) rfl⟩

/-! ## Writes to the output board -/

/-- C19: whatever `CreateRecursive` explored, if it returns `kFailed` the output board
holds after the call exactly the values it held before it; and the run copies a board to
`output` once when it returns `kComplete` and never when it returns `kFailed`. -/
theorem CreateRecursive_output_written_once (sh : Shuffler) (al : Allocator) (fuel : Nat)
    (w : World) (old_state output row column : Nat) (res : RecursionResult) (w2 : World)
    (hr : row < 9) (hc : column < 9) (hold : old_state ∈ w.live) (hout : output ∈ w.live)
    (hrun : CreateRecursive sh al fuel w old_state output row column = some (res, w2)) :
    (res = RecursionResult.kFailed → w2.heap output = w.heap output) ∧
    ∃ log, CreateRecursiveLog sh al fuel w [] old_state output row column =
        some (res, w2, log) ∧
      countOutput log = if res = RecursionResult.kComplete then 1 else 0 := by
  obtain ⟨_, _, _, _, _, _, hfail, _⟩ := CreateRecursive_eq_some sh al fuel w old_state output
    row column hr hc hold hout res w2 hrun
  obtain ⟨log, hlog⟩ := CreateRecursiveLog_of_eq_some sh al fuel w [] old_state output
    row column res w2 hrun
  have hcount := (CreateRecursiveLog_good (fun _ _ => True) (fun _ _ _ h _ => h)
    (fun _ _ _ _ _ _ h _ => h) sh al fuel w [] old_state output row column res w2 log hr hc
    hold hout trivial (fun e he => absurd he (List.not_mem_nil e)) hlog).2
  refine ⟨hfail, log, hlog, ?_⟩
  rw [hcount]
  simp [countOutput]

/-- Witness of C19: the failing call at the last cell of the dead-end board. -/
theorem CreateRecursive_output_written_once_witness :
    ∃ w2, CreateRecursive Shuffler.identity Allocator.bump 1 deadEndWorld 0 1 8 8 =
        some (RecursionResult.kFailed, w2) ∧
      (RecursionResult.kFailed = RecursionResult.kFailed →
        w2.heap 1 = deadEndWorld.heap 1) ∧
      ∃ log, CreateRecursiveLog Shuffler.identity Allocator.bump 1 deadEndWorld [] 0 1 8 8 =
          some (RecursionResult.kFailed, w2, log) ∧
        countOutput log =
          if RecursionResult.kFailed = RecursionResult.kComplete then 1 else 0 :=
  ⟨_, rfl,
    CreateRecursive_output_written_once Shuffler.identity Allocator.bump 1 deadEndWorld 0 1
      8 8 _ _ (by decide) (by decide) (by decide) (by decide) rfl⟩

/-! ## The candidate loop -/

theorem tryCandidates_split (child : World → Option (RecursionResult × World))
    (state output row column : Nat) (b : Board) (hbr : ¬IsAtBottomRight row column = true)
    (hframe : ∀ w res w2, state ∈ w.live → output ∈ w.live → child w = some (res, w2) →
      w2.live = w.live ∧ w2.heap state = w.heap state)
    (cands : List Int) (w : World) (hs : state ∈ w.live) (ho : output ∈ w.live)
    (hb : ∀ r, r < 9 → ∀ c, c < 9 → ¬(r = row ∧ c = column) → w.heap state r c = b r c)
    (res : RecursionResult) (w2 : World)
    (h : tryCandidates child state output row column cands w = some (res, w2)) :
    (res = RecursionResult.kComplete ∧ ∃ pre v post w4 w5, cands = pre ++ v :: post ∧
      TriedAndFailed child state row column b pre w w4 ∧
      SameCells (setCell (w4.heap state) row column v) (setCell b row column v) ∧
      child (w4.store state (setCell (w4.heap state) row column v)) =
        some (RecursionResult.kComplete, w5) ∧
      w2 = w5.free state) ∨
    (res = RecursionResult.kFailed ∧ ∃ w4,
      TriedAndFailed child state row column b cands w w4 ∧ w2 = w4.free state) := by
  induction cands generalizing w with
  | nil =>
    rw [tryCandidates_nil] at h
    cases h
    exact Or.inr ⟨rfl, w, rfl, rfl⟩
  | cons v rest ih =>
    have hsame : SameCells (setCell (w.heap state) row column v) (setCell b row column v) :=
      SameCells_setCell _ _ _ _ _ hb
    cases hchild : child (w.store state (setCell (w.heap state) row column v)) with
    | none =>
      rw [tryCandidates_none _ _ _ _ _ _ _ _ hbr hchild] at h
      cases h
    | some val =>
      obtain ⟨res3, w3⟩ := val
      cases res3 with
      | kComplete =>
        rw [tryCandidates_complete _ _ _ _ _ _ _ _ hbr _ hchild] at h
        cases h
        exact Or.inl ⟨rfl, [], v, rest, w, w3, rfl, rfl, hsame, hchild, rfl⟩
      | kFailed =>
        rw [tryCandidates_failed _ _ _ _ _ _ _ _ hbr _ hchild] at h
        obtain ⟨hlive3, hheap3⟩ := hframe _ _ _ (by simpa using hs) (by simpa using ho) hchild
        have hb3 : ∀ r, r < 9 → ∀ c, c < 9 → ¬(r = row ∧ c = column) →
            w3.heap state r c = b r c := by
          intro r hr c hc hne
          rw [hheap3]
          simp only [store_heap, if_true]
          unfold setCell
          rw [if_neg hne]
          exact hb r hr c hc hne
        rcases ih w3 (by rw [hlive3]; simpa using hs) (by rw [hlive3]; simpa using ho) hb3 h
          with ⟨hres, pre, u, post, w4, w5, hsplit, htried, hsame5, hchild5, hw2⟩ |
            ⟨hres, w4, htried, hw2⟩
        · refine Or.inl ⟨hres, v :: pre, u, post, w4, w5, ?_, ?_, hsame5, hchild5, hw2⟩
          · rw [hsplit]
            rfl
          · exact ⟨hsame, w3, hchild, htried⟩
        · exact Or.inr ⟨hres, w4, ⟨hsame, w3, hchild, htried⟩, hw2⟩

theorem tryCandidates_of_complete (child : World → Option (RecursionResult × World))
    (state output row column : Nat) (b : Board) (hbr : ¬IsAtBottomRight row column = true)
    (pre : List Int) (v : Int) (post : List Int) (w w4 w5 : World)
    (htried : TriedAndFailed child state row column b pre w w4)
    (hchild : child (w4.store state (setCell (w4.heap state) row column v)) =
      some (RecursionResult.kComplete, w5)) :
    tryCandidates child state output row column (pre ++ v :: post) w =
      some (RecursionResult.kComplete, w5.free state) := by
  induction pre generalizing w with
  | nil =>
    have hw : w4 = w := htried
    subst hw
    exact tryCandidates_complete _ _ _ _ _ _ _ _ hbr _ hchild
  | cons u pre ih =>
    obtain ⟨_, w1, hfail, hrest⟩ := htried
    rw [List.cons_append, tryCandidates_failed _ _ _ _ _ _ _ _ hbr _ hfail]
    exact ih w1 hrest

theorem tryCandidates_of_failed (child : World → Option (RecursionResult × World))
    (state output row column : Nat) (b : Board) (hbr : ¬IsAtBottomRight row column = true)
    (cands : List Int) (w w4 : World)
    (htried : TriedAndFailed child state row column b cands w w4) :
    tryCandidates child state output row column cands w =
      some (RecursionResult.kFailed, w4.free state) := by
  induction cands generalizing w with
  | nil =>
    have hw : w4 = w := htried
    subst hw
    rfl
  | cons u rest ih =>
    obtain ⟨_, w1, hfail, hrest⟩ := htried
    rw [tryCandidates_failed _ _ _ _ _ _ _ _ hbr _ hfail]
    exact ih w1 hrest

/-- C13: at a position other than `(8, 8)` with a non-empty candidate vector,
`CreateRecursive` returns `kComplete` exactly when the vector splits as
`pre ++ v :: post` such that the candidates of `pre`, tried in order, each made the
recursive call at `IterateNext row column` return `kFailed`, and the call for `v`, on the
incoming board with cell `(row, column)` set to `v`, returned `kComplete`; the world it
returns is then the one left by that call with the working copy freed, so the output
board is the one that call produced and no candidate of `post` is tried.  It returns
`kFailed` exactly when every candidate of the vector was tried in order and failed.  With
fuel for the remaining cells one of the two happens. -/
theorem CreateRecursive_candidates_in_order (sh : Shuffler) (al : Allocator) (fuel : Nat)
    (w : World) (old_state output row column : Nat)
    (hr : row < 9) (hc : column < 9) (hnl : ¬(row = 8 ∧ column = 8))
    (hold : old_state ∈ w.live) (hout : output ∈ w.live)
    (hcand : (GetAllowedValues sh w old_state row column).shuffled ≠ []) :
    (∀ w2, CreateRecursive sh al (fuel + 1) w old_state output row column =
        some (RecursionResult.kComplete, w2) ↔
      ∃ pre v post w4 w5,
        (GetAllowedValues sh w old_state row column).shuffled = pre ++ v :: post ∧
        TriedAndFailed
          (fun w3 => CreateRecursive sh al fuel w3 (al.pick w.live) output
            (IterateNext row column).1 (IterateNext row column).2)
          (al.pick w.live) row column (w.heap old_state) pre
          (enterFrame sh al w old_state row column) w4 ∧
        SameCells (setCell (w4.heap (al.pick w.live)) row column v)
          (setCell (w.heap old_state) row column v) ∧
        CreateRecursive sh al fuel
          (w4.store (al.pick w.live) (setCell (w4.heap (al.pick w.live)) row column v))
          (al.pick w.live) output (IterateNext row column).1 (IterateNext row column).2 =
            some (RecursionResult.kComplete, w5) ∧
        w2 = w5.free (al.pick w.live)) ∧
    (∀ w2, CreateRecursive sh al (fuel + 1) w old_state output row column =
        some (RecursionResult.kFailed, w2) ↔
      ∃ w4,
        TriedAndFailed
          (fun w3 => CreateRecursive sh al fuel w3 (al.pick w.live) output
            (IterateNext row column).1 (IterateNext row column).2)
          (al.pick w.live) row column (w.heap old_state)
          (GetAllowedValues sh w old_state row column).shuffled
          (enterFrame sh al w old_state row column) w4 ∧
        w2 = w4.free (al.pick w.live)) ∧
    (81 ≤ fuel + 1 + (9 * row + column) →
      ∃ res w2, CreateRecursive sh al (fuel + 1) w old_state output row column =
        some (res, w2)) := by
  have hbr : ¬IsAtBottomRight row column = true := by
    rw [IsAtBottomRight_iff row column hr hc]
    omega
  have hnext := IterateNext_in_range row column hr hc hbr
  have hfresh := al.fresh w.live
  have hso : al.pick w.live ≠ output := fun h => hfresh (h ▸ hout)
  have hlen : ¬(enterFrame sh al w old_state row column).shuffled.length = 0 := by
    rw [enterFrame_shuffled sh al w old_state row column hold, List.length_eq_zero]
    exact hcand
  have hunfold := CreateRecursive_succ_enterFrame sh al fuel w old_state output row column
  rw [if_neg hlen, enterFrame_shuffled sh al w old_state row column hold] at hunfold
  have hframe : ∀ w3 res w4, al.pick w.live ∈ w3.live → output ∈ w3.live →
      CreateRecursive sh al fuel w3 (al.pick w.live) output (IterateNext row column).1
        (IterateNext row column).2 = some (res, w4) →
      w4.live = w3.live ∧ w4.heap (al.pick w.live) = w3.heap (al.pick w.live) := by
    intro w3 res w4 hs3 ho3 hrun
    obtain ⟨_, _, _, hlive4, _, hkeep4, _⟩ := CreateRecursive_eq_some sh al fuel w3
      (al.pick w.live) output _ _ hnext.1 hnext.2.1 hs3 ho3 res w4 hrun
    exact ⟨hlive4, hkeep4 _ hs3 hso⟩
  have hs : al.pick w.live ∈ (enterFrame sh al w old_state row column).live := by
    rw [enterFrame_live]
    simp
  have ho : output ∈ (enterFrame sh al w old_state row column).live := by
    rw [enterFrame_live]
    simp [hout]
  have hb : ∀ r, r < 9 → ∀ c, c < 9 → ¬(r = row ∧ c = column) →
      (enterFrame sh al w old_state row column).heap (al.pick w.live) r c =
        w.heap old_state r c := by
    intro r hr2 c hc2 _
    rw [enterFrame_heap, if_pos rfl]
    simp [Copy, hr2, hc2]
  refine ⟨fun w2 => ⟨fun hrun => ?_, ?_⟩, fun w2 => ⟨fun hrun => ?_, ?_⟩, fun hfuel => ?_⟩
  · rw [hunfold] at hrun
    rcases tryCandidates_split _ _ _ _ _ (w.heap old_state) hbr hframe _ _ hs ho hb _ _ hrun
      with ⟨_, hsplit⟩ | ⟨hres, _⟩
    · exact hsplit
    · cases hres
  · rintro ⟨pre, v, post, w4, w5, hsplit, htried, _, hchild, hw2⟩
    rw [hunfold, hsplit, hw2]
    exact tryCandidates_of_complete _ _ _ _ _ _ hbr pre v post _ w4 w5 htried hchild
  · rw [hunfold] at hrun
    rcases tryCandidates_split _ _ _ _ _ (w.heap old_state) hbr hframe _ _ hs ho hb _ _ hrun
      with ⟨hres, _⟩ | ⟨_, hall⟩
    · cases hres
    · exact hall
  · rintro ⟨w4, htried, hw2⟩
    rw [hunfold, hw2]
    exact tryCandidates_of_failed _ _ _ _ _ _ hbr _ _ w4 htried
  · exact CreateRecursive_returns sh al (fuel + 1) w old_state output row column hr hc hold
      hout hfuel

/-- Witness of C13: the frame at `(8, 7)` on the solved board with its last two cells
emptied has one candidate, whose recursive call completes the board. -/
theorem CreateRecursive_candidates_in_order_witness :
    (GetAllowedValues Shuffler.identity lastTwoCellsWorld 0 8 7).shuffled ≠ [] ∧
    ∃ w2, CreateRecursive Shuffler.identity Allocator.bump (1 + 1) lastTwoCellsWorld 0 1 8 7 =
        some (RecursionResult.kComplete, w2) ∧
      ∃ pre v post w4 w5,
        (GetAllowedValues Shuffler.identity lastTwoCellsWorld 0 8 7).shuffled =
          pre ++ v :: post ∧
        TriedAndFailed
          (fun w3 => CreateRecursive Shuffler.identity Allocator.bump 1 w3
            (Allocator.bump.pick lastTwoCellsWorld.live) 1
            (IterateNext 8 7).1 (IterateNext 8 7).2)
          (Allocator.bump.pick lastTwoCellsWorld.live) 8 7 (lastTwoCellsWorld.heap 0) pre
          (enterFrame Shuffler.identity Allocator.bump lastTwoCellsWorld 0 8 7) w4 ∧
        SameCells (setCell (w4.heap (Allocator.bump.pick lastTwoCellsWorld.live)) 8 7 v)
          (setCell (lastTwoCellsWorld.heap 0) 8 7 v) ∧
        CreateRecursive Shuffler.identity Allocator.bump 1
          (w4.store (Allocator.bump.pick lastTwoCellsWorld.live)
            (setCell (w4.heap (Allocator.bump.pick lastTwoCellsWorld.live)) 8 7 v))
          (Allocator.bump.pick lastTwoCellsWorld.live) 1 (IterateNext 8 7).1
          (IterateNext 8 7).2 = some (RecursionResult.kComplete, w5) ∧
        w2 = w5.free (Allocator.bump.pick lastTwoCellsWorld.live) :=
  ⟨by decide, _, rfl,
    ((CreateRecursive_candidates_in_order Shuffler.identity Allocator.bump 1
      lastTwoCellsWorld 0 1 8 7 (by decide) (by decide) (by decide) (by decide) (by decide)
      (by decide)).1 _).1 rfl⟩

end Sudoku
